import Mathlib

/-!
Verification of the log-processing pipeline of `task_3.py`
(repository goit-pycore-hw-05).

The Python functions are shallowly embedded as executable Lean
definitions over `List Char` / `String`:

* `parse_log_line`  — per-line parser (trim, split on single spaces with
  maxsplit 3, strptime validation of the date-time token, level check);
* `pyStrptime`      — model of `datetime.strptime(tok, "%Y-%m-%d %H:%M:%S")`,
  reproducing CPython's `_strptime` regular expression (4-digit year,
  1-or-2-digit month/day/hour/minute/second with the regex's value ranges,
  `\s+` between date and time) followed by the `datetime` constructor's
  range checks;
* `load_logs`, `filter_logs_by_level`, `count_logs_by_level`,
  `display_filtered_logs`, `main_run` — the rest of the pipeline.

Character classes (whitespace, digits) are modelled over the ASCII range,
as is `str.upper`; all inputs exercised by the claims are ASCII.
-/

namespace Task3

/-- ASCII whitespace, the class stripped by Python's `str.strip()` and
matched by the regex class used between date and time in strptime. -/
def pyWs (c : Char) : Bool :=
  c.toNat = 32 || c.toNat = 9 || c.toNat = 10 || c.toNat = 13 ||
  c.toNat = 11 || c.toNat = 12

/-- ASCII decimal digit (regex class `\d`). -/
def isDig (c : Char) : Bool := 48 ≤ c.toNat && c.toNat ≤ 57

/-- Numeric value of a digit character. -/
def dval (c : Char) : Nat := c.toNat - 48

/-- `str.strip()` on a character list: drop whitespace from both ends. -/
def stripList (cs : List Char) : List Char :=
  ((cs.dropWhile pyWs).reverse.dropWhile pyWs).reverse

/-- `str.strip()`. -/
def pyStrip (s : String) : String := String.mk (stripList s.data)

/-- `str.upper()` (ASCII). -/
def pyUpper (s : String) : String := String.mk (s.data.map Char.toUpper)

/-- Split a list at the first space character: the part before it and,
when a space exists, the remainder after it. -/
def breakSp : List Char → List Char × Option (List Char)
  | [] => ([], none)
  | c :: cs =>
    if c = ' ' then ([], some cs)
    else
      let p := breakSp cs
      (c :: p.1, p.2)

/-- `str.split(" ", n)`: split on single space characters, at most `n`
splits, the final part keeping the remainder verbatim. -/
def splitSp : Nat → List Char → List (List Char)
  | 0, cs => [cs]
  | n + 1, cs =>
    match breakSp cs with
    | (p, none) => [p]
    | (p, some rest) => p :: splitSp n rest

/-- Result of a successful strptime: the six date-time components. -/
structure DT where
  year : Nat
  month : Nat
  day : Nat
  hour : Nat
  minute : Nat
  second : Nat
deriving DecidableEq, Repr

/-- `%Y`: exactly four digits. -/
def read4 : List Char → Option (Nat × List Char)
  | a :: b :: c :: d :: rest =>
    if isDig a && isDig b && isDig c && isDig d then
      some (((dval a * 10 + dval b) * 10 + dval c) * 10 + dval d, rest)
    else none
  | _ => none

/-- A numeric field of one or two digits, as CPython's strptime regex
alternations behave in this format: a two-digit read succeeds when the
value lies in `lo2..hi2`; otherwise a single digit is read when its value
is at least `lo1` (the next character, not being a digit, can only be
matched by the following literal separator). -/
def readComp (lo2 hi2 lo1 : Nat) : List Char → Option (Nat × List Char)
  | c1 :: c2 :: rest =>
    if isDig c1 then
      if isDig c2 then
        let v := dval c1 * 10 + dval c2
        if lo2 ≤ v && v ≤ hi2 then some (v, rest) else none
      else
        if lo1 ≤ dval c1 then some (dval c1, c2 :: rest) else none
    else none
  | [c1] =>
    if isDig c1 && lo1 ≤ dval c1 then some (dval c1, []) else none
  | [] => none

/-- Literal separator character. -/
def expCh (ch : Char) : List Char → Option (List Char)
  | c :: rest => if c = ch then some rest else none
  | [] => none

/-- `\s+`: one or more whitespace characters (greedy; the following
field starts with a digit, so greediness is exact). -/
def expWs : List Char → Option (List Char)
  | c :: rest => if pyWs c then some (rest.dropWhile pyWs) else none
  | [] => none

/-- The regular-expression stage of
`datetime.strptime(s, "%Y-%m-%d %H:%M:%S")`: component syntax and the
regex value ranges, requiring the whole string to be consumed. -/
def strptimeRe (cs : List Char) : Option DT := do
  let (y, r1) ← read4 cs
  let r2 ← expCh '-' r1
  let (mo, r3) ← readComp 1 12 1 r2
  let r4 ← expCh '-' r3
  let (d, r5) ← readComp 1 31 1 r4
  let r6 ← expWs r5
  let (h, r7) ← readComp 0 23 0 r6
  let r8 ← expCh ':' r7
  let (mi, r9) ← readComp 0 59 0 r8
  let r10 ← expCh ':' r9
  let (s, r11) ← readComp 0 61 0 r10
  if r11 = [] then pure ⟨y, mo, d, h, mi, s⟩ else none

/-- Gregorian leap year, as in Python's `calendar`/`datetime`. -/
def isLeap (y : Nat) : Bool := y % 4 = 0 && (y % 100 ≠ 0 || y % 400 = 0)

/-- Days in a month. -/
def daysInMonth (y m : Nat) : Nat :=
  if m = 2 then (if isLeap y then 29 else 28)
  else if m = 4 || m = 6 || m = 9 || m = 11 then 30
  else 31

/-- The `datetime(...)` constructor's range checks (these reject the
leap seconds 60 and 61 that the regex stage admits). -/
def ctorOk (t : DT) : Bool :=
  1 ≤ t.year && t.year ≤ 9999 && 1 ≤ t.month && t.month ≤ 12 &&
  1 ≤ t.day && t.day ≤ daysInMonth t.year t.month &&
  t.hour ≤ 23 && t.minute ≤ 59 && t.second ≤ 59

/-- `datetime.strptime(s, "%Y-%m-%d %H:%M:%S")`: succeeds exactly when
both the regex stage and the constructor accept. -/
def pyStrptime (cs : List Char) : Option DT :=
  match strptimeRe cs with
  | some t => if ctorOk t then some t else none
  | none => none

/-- The four recognized level tokens. -/
def LOG_LEVELS : List String := ["INFO", "DEBUG", "ERROR", "WARNING"]

/-- A validated log record: `date`, `level`, `message` (the keys of the
dict built by `parse_log_line`). -/
structure LogRecord where
  date : String
  level : String
  message : String
deriving DecidableEq, Repr

/-- `parse_log_line`: trim, split on spaces with maxsplit 3, require 4
fields, validate the combined date-time token with strptime, require a
recognized level, and return the record with the trimmed 4th field as
message; any failure yields `none`. -/
def parse_log_line (line : String) : Option LogRecord :=
  match splitSp 3 (stripList line.data) with
  | [p0, p1, p2, p3] =>
    let token := p0 ++ ' ' :: p1
    match pyStrptime token with
    | some _ =>
      if String.mk p2 ∈ LOG_LEVELS then
        some ⟨String.mk token, String.mk p2, String.mk (stripList p3)⟩
      else none
    | none => none
  | _ => none

/-- The three handlers of `load_logs`'s `try/except`: file not found,
permission denied, any other read error. -/
inductive FileErr
  | notFound
  | permission
  | other
deriving DecidableEq, Repr

/-- An input source: either the file's lines or a read failure. -/
abbrev Source := Except FileErr (List String)

/-- `load_logs`: on a readable source, parse every line in order and
keep the successes; on any read failure return the empty list. -/
def load_logs : Source → List LogRecord
  | .error _ => []
  | .ok lines => lines.filterMap parse_log_line

/-- The diagnostic `load_logs` prints (modelled up to the embedded file
path): one message per error handler, and the empty-result warning. -/
def load_diag : Source → Option String
  | .error .notFound => some "Error: File not found"
  | .error .permission => some "Error: Permission denied accessing"
  | .error .other => some "Error: Unexpected error reading file"
  | .ok lines =>
    if lines.filterMap parse_log_line = [] then
      some "Warning: No valid log entries found in file"
    else none

/-- The complete observable outcome of `load_logs`: the returned
records and the printed diagnostic. -/
def load_logs_run (src : Source) : List LogRecord × Option String :=
  (load_logs src, load_diag src)

/-- `filter_logs_by_level`: keep records whose uppercased level equals
the uppercased query. -/
def filter_logs_by_level (logs : List LogRecord) (level : String) : List LogRecord :=
  logs.filter (fun log => pyUpper log.level == pyUpper level)

/-- One `reduce` step of `count_logs_by_level`: `{**acc, lv: acc.get(lv, 0) + 1}`
on an insertion-ordered dict, modelled as an association list (an existing
key keeps its position, a new key is appended). -/
def bump : List (String × Nat) → String → List (String × Nat)
  | [], lv => [(lv, 1)]
  | (k, v) :: rest, lv =>
    if k = lv then (k, v + 1) :: rest else (k, v) :: bump rest lv

/-- `count_logs_by_level`: fold `bump` over the records. -/
def count_logs_by_level (logs : List LogRecord) : List (String × Nat) :=
  logs.foldl (fun acc log => bump acc log.level) []

/-- Python string `<`: lexicographic comparison by code point. -/
def lexLt : List Char → List Char → Bool
  | [], [] => false
  | [], _ :: _ => true
  | _ :: _, [] => false
  | a :: as, b :: bs =>
    if a.toNat < b.toNat then true
    else if b.toNat < a.toNat then false
    else lexLt as bs

/-- The key order used by `sorted(logs, key=lambda x: x["date"])`:
`a` may precede `b` when `b`'s date is not strictly below `a`'s. -/
def dateLe (a b : LogRecord) : Prop := lexLt b.date.data a.date.data = false

instance : DecidableRel dateLe := fun a b => by
  unfold dateLe; infer_instance

/-- Python's `sorted` is a stable sort by the key order; a stable sort's
output is unique, so insertion sort embeds it faithfully. -/
def sortByDate (logs : List LogRecord) : List LogRecord :=
  List.insertionSort dateLe logs

/-- `display_filtered_logs`: `none` models the branch that prints
"No logs found for level ..."; otherwise the rendered lines of the
records sorted by date string. -/
def display_filtered_logs (logs : List LogRecord) : Option (List String) :=
  if logs = [] then none
  else some ((sortByDate logs).map (fun r => r.date ++ " - " ++ r.message))

/-- What one invocation of `main` prints, structurally: the load-stage
diagnostic, whether the statistics table was printed, whether the
invalid-filter-level error was printed, and the filtered report when
`display_filtered_logs` was invoked. -/
structure RunOutput where
  loadDiag : Option String
  tableShown : Bool
  invalidLevelDiag : Bool
  filteredOut : Option (Option (List String))
deriving DecidableEq, Repr

/-- `main`: load; return early when no valid records; print the count
table; then, when a filter argument is present, validate its uppercased
form and either print the error or the filtered report. -/
def main_run (src : Source) (levelArg : Option String) : RunOutput :=
  let logs := load_logs src
  if logs = [] then ⟨load_diag src, false, false, none⟩
  else
    let counts := count_logs_by_level logs
    match levelArg with
    | none => ⟨load_diag src, !counts.isEmpty, false, none⟩
    | some arg =>
      let level := pyUpper arg
      if level ∈ LOG_LEVELS then
        ⟨load_diag src, !counts.isEmpty, false,
          some (display_filtered_logs (filter_logs_by_level logs level))⟩
      else ⟨load_diag src, !counts.isEmpty, true, none⟩

/-- Number of whitespace-delimited tokens (the token count of Python's
argument-free `str.split()`), via a scan that records whether the
previous character was inside a token. -/
def tokAux : Bool → List Char → Nat
  | _, [] => 0
  | inTok, c :: rest =>
    if pyWs c then tokAux false rest
    else (if inTok then 0 else 1) + tokAux true rest

/-- Token count of a string. -/
def tokCount (s : String) : Nat := tokAux false s.data

/-- Re-serialize a record the way the round-trip property describes:
timestamp, level and message joined by single spaces. -/
def reserialize (r : LogRecord) : String :=
  r.date ++ " " ++ r.level ++ " " ++ r.message

/-- The number of input lines the parser rejects.  Modelled from the
spec: `load` is specified to return this count alongside the records,
but `load_logs` in the source returns only the record list. -/
def specRejectedCount (lines : List String) : Nat :=
  (lines.filter (fun l => (parse_log_line l).isNone)).length

/-- A date-time token in the strict zero-padded fixed-width form
`YYYY-MM-DD HH:MM:SS`. -/
def isStrictToken (s : String) : Bool :=
  match s.data with
  | [y1, y2, y3, y4, s1, m1, m2, s2, d1, d2, s3, h1, h2, s4, n1, n2, s5, e1, e2] =>
    isDig y1 && isDig y2 && isDig y3 && isDig y4 &&
    isDig m1 && isDig m2 && isDig d1 && isDig d2 &&
    isDig h1 && isDig h2 && isDig n1 && isDig n2 &&
    isDig e1 && isDig e2 &&
    s1 = '-' && s2 = '-' && s3 = ' ' && s4 = ':' && s5 = ':'
  | _ => false

/-- Chronological rank of a date-time: components combined positionally
(every component is below its base). -/
def dtRank (t : DT) : Nat :=
  ((((t.year * 100 + t.month) * 100 + t.day) * 100 + t.hour) * 100 +
    t.minute) * 100 + t.second

/-- Chronological rank of a record's date string, through the same
strptime model that validated it. -/
def chronoRank (r : LogRecord) : Nat :=
  match pyStrptime r.date.data with
  | some t => dtRank t
  | none => 0

/-- The rank of a strict-form token, read directly from its digits; for
a strict token that strptime accepts this equals the chronological rank
of its date-time value (`dtRank`). -/
def strictRank (s : String) : Nat :=
  match s.data with
  | [y1, y2, y3, y4, _, m1, m2, _, d1, d2, _, h1, h2, _, n1, n2, _, e1, e2] =>
    dtRank ⟨((dval y1 * 10 + dval y2) * 10 + dval y3) * 10 + dval y4,
      dval m1 * 10 + dval m2, dval d1 * 10 + dval d2,
      dval h1 * 10 + dval h2, dval n1 * 10 + dval n2,
      dval e1 * 10 + dval e2⟩
  | _ => 0

/-! Basic character and list lemmas -/

theorem char_toNat_inj {c₁ c₂ : Char} (h : c₁.toNat = c₂.toNat) : c₁ = c₂ := by
  have h1 := Char.ofNat_toNat c₁
  rw [← h1, h, Char.ofNat_toNat]

theorem isDig_not_ws {c : Char} (h : isDig c = true) : pyWs c = false := by
  simp only [isDig, Bool.and_eq_true, decide_eq_true_eq] at h
  simp only [pyWs, Bool.or_eq_false_iff, decide_eq_false_iff_not]
  omega

theorem ws_space : pyWs ' ' = true := by decide

theorem mem_of_getLast? {α : Type} {l : List α} {a : α}
    (h : l.getLast? = some a) : a ∈ l := by
  induction l with
  | nil => simp at h
  | cons x xs ih =>
    cases xs with
    | nil => simp_all [List.getLast?]
    | cons y ys =>
      rw [List.getLast?_cons_cons] at h
      exact List.mem_cons_of_mem x (ih h)

theorem dropWhile_head_false {p : Char → Bool} {l : List Char} {c : Char}
    {rest : List Char} (h : l.dropWhile p = c :: rest) : p c = false := by
  induction l with
  | nil => simp at h
  | cons x xs ih =>
    rw [List.dropWhile_cons] at h
    by_cases hx : p x = true
    · exact ih (by simpa [hx] using h)
    · simp [hx] at h
      simp [← h.1, Bool.eq_false_iff, hx]

theorem dropWhile_of_head_false {p : Char → Bool} {c : Char} {l : List Char}
    (h : p c = false) : (c :: l).dropWhile p = c :: l := by
  simp [List.dropWhile_cons, h]

/-! `breakSp` and `splitSp` -/

theorem breakSp_eq_none {cs p : List Char} (h : breakSp cs = (p, none)) :
    cs = p ∧ ' ' ∉ p := by
  induction cs generalizing p with
  | nil =>
    simp only [breakSp, Prod.mk.injEq] at h
    simp [← h.1]
  | cons c rest ih =>
    by_cases hc : c = ' '
    · rw [breakSp, if_pos hc] at h
      simp at h
    · rw [breakSp, if_neg hc] at h
      simp only [Prod.mk.injEq] at h
      obtain ⟨h1, h2⟩ := h
      obtain ⟨he, hm⟩ := ih (Prod.ext rfl h2)
      subst h1
      refine ⟨congrArg (c :: ·) he, ?_⟩
      intro hmem
      rcases List.mem_cons.mp hmem with h' | h'
      · exact hc h'.symm
      · exact hm h'

theorem breakSp_eq_some {cs p r : List Char} (h : breakSp cs = (p, some r)) :
    cs = p ++ ' ' :: r ∧ ' ' ∉ p := by
  induction cs generalizing p with
  | nil => simp [breakSp] at h
  | cons c rest ih =>
    by_cases hc : c = ' '
    · rw [breakSp, if_pos hc] at h
      simp only [Prod.mk.injEq, Option.some.injEq] at h
      obtain ⟨h1, h2⟩ := h
      subst hc
      rw [← h1, ← h2]
      simp
    · rw [breakSp, if_neg hc] at h
      simp only [Prod.mk.injEq] at h
      obtain ⟨h1, h2⟩ := h
      obtain ⟨he, hm⟩ := ih (Prod.ext rfl h2)
      subst h1
      constructor
      · rw [List.cons_append]
        exact congrArg (c :: ·) he
      · intro hmem
        rcases List.mem_cons.mp hmem with h' | h'
        · exact hc h'.symm
        · exact hm h'

theorem breakSp_append {p : List Char} (r : List Char) (hp : ' ' ∉ p) :
    breakSp (p ++ ' ' :: r) = (p, some r) := by
  induction p with
  | nil => simp [breakSp]
  | cons c cs ih =>
    have hc : c ≠ ' ' := fun h => hp (h ▸ List.mem_cons_self c cs)
    rw [List.cons_append, breakSp, if_neg hc,
      ih (fun h => hp (List.mem_cons_of_mem c h))]

theorem splitSp_three_eq {cs p0 p1 p2 p3 : List Char}
    (h : splitSp 3 cs = [p0, p1, p2, p3]) :
    cs = p0 ++ ' ' :: (p1 ++ ' ' :: (p2 ++ ' ' :: p3)) ∧
      ' ' ∉ p0 ∧ ' ' ∉ p1 ∧ ' ' ∉ p2 := by
  simp only [splitSp] at h
  cases hb0 : breakSp cs with
  | mk q0 o0 =>
    rw [hb0] at h
    cases o0 with
    | none => simp at h
    | some r0 =>
      simp only [List.cons.injEq] at h
      obtain ⟨hq0, h⟩ := h
      cases hb1 : breakSp r0 with
      | mk q1 o1 =>
        rw [hb1] at h
        cases o1 with
        | none => simp at h
        | some r1 =>
          simp only [List.cons.injEq] at h
          obtain ⟨hq1, h⟩ := h
          cases hb2 : breakSp r1 with
          | mk q2 o2 =>
            rw [hb2] at h
            cases o2 with
            | none => simp at h
            | some r2 =>
              simp only [List.cons.injEq] at h
              obtain ⟨hq2, hq3, -⟩ := h
              obtain ⟨he0, hm0⟩ := breakSp_eq_some hb0
              obtain ⟨he1, hm1⟩ := breakSp_eq_some hb1
              obtain ⟨he2, hm2⟩ := breakSp_eq_some hb2
              subst hq0 hq1 hq2 hq3
              exact ⟨by rw [he0, he1, he2], hm0, hm1, hm2⟩

theorem splitSp_three_concat {p0 p1 p2 : List Char} (p3 : List Char)
    (h0 : ' ' ∉ p0) (h1 : ' ' ∉ p1) (h2 : ' ' ∉ p2) :
    splitSp 3 (p0 ++ ' ' :: (p1 ++ ' ' :: (p2 ++ ' ' :: p3))) = [p0, p1, p2, p3] := by
  simp only [splitSp]
  rw [breakSp_append _ h0]
  simp only
  rw [breakSp_append _ h1]
  simp only
  rw [breakSp_append _ h2]

/-! Strip lemmas -/

theorem strip_all_ws_iff {cs : List Char} :
    stripList cs = [] ↔ ∀ c ∈ cs, pyWs c = true := by
  unfold stripList
  rw [List.reverse_eq_nil_iff, List.dropWhile_eq_nil_iff]
  constructor
  · intro h c hc
    by_cases hws : pyWs c = true
    · exact hws
    · exfalso
      have : c ∈ cs.dropWhile pyWs := by
        by_contra hnot
        have heq : cs = cs.takeWhile pyWs ++ cs.dropWhile pyWs :=
          (List.takeWhile_append_dropWhile pyWs cs).symm
        rw [heq] at hc
        rcases List.mem_append.mp hc with h' | h'
        · exact hws (List.mem_takeWhile_imp h')
        · exact hnot h'
      exact (Bool.eq_false_iff.mp (Bool.not_eq_true _ ▸ hws))
        (h c (List.mem_reverse.mpr this))
  · intro h c hc
    have : c ∈ cs.dropWhile pyWs := List.mem_reverse.mp hc
    exact h c (List.dropWhile_sublist pyWs |>.mem this)

theorem dropWhile_eq_strip_append (cs : List Char) :
    ∃ t, cs.dropWhile pyWs = stripList cs ++ t ∧ ∀ x ∈ t, pyWs x = true := by
  refine ⟨((cs.dropWhile pyWs).reverse.takeWhile pyWs).reverse, ?_, ?_⟩
  · unfold stripList
    rw [← List.reverse_append, List.takeWhile_append_dropWhile, List.reverse_reverse]
  · intro x hx
    exact List.mem_takeWhile_imp (List.mem_reverse.mp hx)

theorem strip_head {cs : List Char} {c : Char} {rest : List Char}
    (h : stripList cs = c :: rest) : pyWs c = false := by
  obtain ⟨t, ht, -⟩ := dropWhile_eq_strip_append cs
  rw [h, List.cons_append] at ht
  exact dropWhile_head_false ht

theorem strip_last {cs : List Char} {c : Char} {rest : List Char}
    (h : stripList cs = c :: rest) :
    ∃ d, (c :: rest).getLast? = some d ∧ pyWs d = false := by
  have hz : ((cs.dropWhile pyWs).reverse.dropWhile pyWs) = (c :: rest).reverse := by
    unfold stripList at h
    rw [← h, List.reverse_reverse]
  cases hrev : (c :: rest).reverse with
  | nil => exact absurd (List.reverse_eq_nil_iff.mp hrev) (by simp)
  | cons d w =>
    refine ⟨d, ?_, ?_⟩
    · rw [List.getLast?_eq_head?_reverse, hrev]; rfl
    · exact dropWhile_head_false (hz.trans hrev)

theorem stripList_eq_self {cs : List Char} {c d : Char}
    (hhead : cs.head? = some c) (hc : pyWs c = false)
    (hlast : cs.getLast? = some d) (hd : pyWs d = false) :
    stripList cs = cs := by
  cases cs with
  | nil => simp at hhead
  | cons c0 l =>
    have hc0 : c0 = c := by simpa using hhead
    subst hc0
    cases hrev : (c0 :: l).reverse with
    | nil => exact absurd (List.reverse_eq_nil_iff.mp hrev) (by simp)
    | cons d0 w =>
      have hd0 : d0 = d := by
        have := @List.getLast?_eq_head?_reverse Char (c0 :: l)
        rw [hlast, hrev] at this
        simpa using this.symm
      subst hd0
      have h1 : List.dropWhile pyWs (c0 :: l) = c0 :: l := dropWhile_of_head_false hc
      have h2 : List.dropWhile pyWs (c0 :: l).reverse = (c0 :: l).reverse := by
        rw [hrev]
        exact dropWhile_of_head_false hd
      unfold stripList
      rw [h1, h2, List.reverse_reverse]

theorem strip_idem (cs : List Char) : stripList (stripList cs) = stripList cs := by
  cases h : stripList cs with
  | nil => rfl
  | cons c rest =>
    obtain ⟨d, hd, hdws⟩ := strip_last h
    exact stripList_eq_self rfl (strip_head h) hd hdws

/-! Structural facts about the strptime model -/

theorem read4_shape {cs : List Char} {v : Nat} {r : List Char}
    (h : read4 cs = some (v, r)) :
    ∃ a b c d, cs = a :: b :: c :: d :: r ∧ isDig a = true := by
  match cs with
  | [] => simp [read4] at h
  | [a] => simp [read4] at h
  | [a, b] => simp [read4] at h
  | [a, b, c] => simp [read4] at h
  | a :: b :: c :: d :: rest =>
    rw [read4] at h
    simp only [Bool.and_eq_true] at h
    by_cases hd : (isDig a = true ∧ isDig b = true) ∧ isDig c = true
    · by_cases hd2 : isDig d = true
      · rw [if_pos ⟨hd, hd2⟩] at h
        simp only [Option.some.injEq, Prod.mk.injEq] at h
        exact ⟨a, b, c, d, by rw [h.2], hd.1.1⟩
      · rw [if_neg (fun hx => hd2 hx.2)] at h
        exact absurd h (by simp)
    · rw [if_neg (fun hx => hd hx.1)] at h
      exact absurd h (by simp)

theorem expCh_suffix {ch : Char} {cs r : List Char} (h : expCh ch cs = some r) :
    ∃ pre, cs = pre ++ r := by
  match cs with
  | [] => simp [expCh] at h
  | c :: rest =>
    rw [expCh] at h
    by_cases hc : c = ch
    · simp only [if_pos hc, Option.some.injEq] at h
      exact ⟨[c], by simp [h]⟩
    · simp [if_neg hc] at h

theorem expWs_suffix {cs r : List Char} (h : expWs cs = some r) :
    ∃ pre, cs = pre ++ r := by
  match cs with
  | [] => simp [expWs] at h
  | c :: rest =>
    rw [expWs] at h
    by_cases hc : pyWs c = true
    · simp only [if_pos hc, Option.some.injEq] at h
      refine ⟨c :: rest.takeWhile pyWs, ?_⟩
      rw [← h, List.cons_append, List.takeWhile_append_dropWhile]
    · simp [hc] at h

theorem readComp_suffix {lo2 hi2 lo1 : Nat} {cs r : List Char} {v : Nat}
    (h : readComp lo2 hi2 lo1 cs = some (v, r)) :
    ∃ pre, cs = pre ++ r := by
  match cs with
  | [] => simp [readComp] at h
  | [c1] =>
    rw [readComp] at h
    simp only [Bool.and_eq_true, decide_eq_true_eq] at h
    by_cases hc : isDig c1 = true ∧ lo1 ≤ dval c1
    · rw [if_pos hc] at h
      simp only [Option.some.injEq, Prod.mk.injEq] at h
      exact ⟨[c1], by simp [← h.2]⟩
    · rw [if_neg hc] at h
      exact absurd h (by simp)
  | c1 :: c2 :: rest =>
    rw [readComp] at h
    simp only [Bool.and_eq_true, decide_eq_true_eq] at h
    by_cases h1 : isDig c1 = true
    · rw [if_pos h1] at h
      by_cases h2 : isDig c2 = true
      · rw [if_pos h2] at h
        by_cases h3 : lo2 ≤ dval c1 * 10 + dval c2 ∧ dval c1 * 10 + dval c2 ≤ hi2
        · rw [if_pos h3] at h
          simp only [Option.some.injEq, Prod.mk.injEq] at h
          exact ⟨[c1, c2], by simp [h.2]⟩
        · rw [if_neg h3] at h
          exact absurd h (by simp)
      · rw [if_neg h2] at h
        by_cases h3 : lo1 ≤ dval c1
        · rw [if_pos h3] at h
          simp only [Option.some.injEq, Prod.mk.injEq] at h
          exact ⟨[c1], by simp [h.2]⟩
        · rw [if_neg h3] at h
          exact absurd h (by simp)
    · rw [if_neg h1] at h
      exact absurd h (by simp)

theorem readComp_last {lo2 hi2 lo1 : Nat} {cs : List Char} {v : Nat}
    (h : readComp lo2 hi2 lo1 cs = some (v, [])) :
    ∃ d, cs.getLast? = some d ∧ isDig d = true := by
  match cs with
  | [] => simp [readComp] at h
  | [c1] =>
    rw [readComp] at h
    simp only [Bool.and_eq_true, decide_eq_true_eq] at h
    by_cases hc : isDig c1 = true ∧ lo1 ≤ dval c1
    · exact ⟨c1, rfl, hc.1⟩
    · rw [if_neg hc] at h
      exact absurd h (by simp)
  | c1 :: c2 :: rest =>
    rw [readComp] at h
    simp only [Bool.and_eq_true, decide_eq_true_eq] at h
    by_cases h1 : isDig c1 = true
    · rw [if_pos h1] at h
      by_cases h2 : isDig c2 = true
      · rw [if_pos h2] at h
        by_cases h3 : lo2 ≤ dval c1 * 10 + dval c2 ∧ dval c1 * 10 + dval c2 ≤ hi2
        · rw [if_pos h3] at h
          simp only [Option.some.injEq, Prod.mk.injEq] at h
          obtain ⟨-, h4⟩ := h
          rw [h4]
          exact ⟨c2, rfl, h2⟩
        · rw [if_neg h3] at h
          exact absurd h (by simp)
      · rw [if_neg h2] at h
        by_cases h3 : lo1 ≤ dval c1
        · rw [if_pos h3] at h
          simp only [Option.some.injEq, Prod.mk.injEq] at h
          exact absurd h.2 (by simp)
        · rw [if_neg h3] at h
          exact absurd h (by simp)
    · rw [if_neg h1] at h
      exact absurd h (by simp)

theorem getLast?_append_of_some {l r : List Char} {d : Char}
    (h : r.getLast? = some d) : (l ++ r).getLast? = some d := by
  rw [List.getLast?_append, h]
  rfl

theorem strptimeRe_head {cs : List Char} {t : DT} (h : strptimeRe cs = some t) :
    ∃ c r, cs = c :: r ∧ isDig c = true := by
  unfold strptimeRe at h
  cases h1 : read4 cs with
  | none => rw [h1] at h; exact Option.noConfusion h
  | some p1 =>
    obtain ⟨y, r1⟩ := p1
    obtain ⟨a, b, c, d, hcs, ha⟩ := read4_shape h1
    exact ⟨a, b :: c :: d :: r1, hcs, ha⟩

theorem strptimeRe_last {cs : List Char} {t : DT} (h : strptimeRe cs = some t) :
    ∃ d, cs.getLast? = some d ∧ isDig d = true := by
  unfold strptimeRe at h
  cases h1 : read4 cs with
  | none => rw [h1] at h; exact Option.noConfusion h
  | some p1 =>
  rw [h1] at h
  obtain ⟨y, r1⟩ := p1
  simp only [Option.pure_def, Option.bind_eq_bind, Option.some_bind] at h
  cases h2 : expCh '-' r1 with
  | none => rw [h2] at h; exact Option.noConfusion h
  | some r2 =>
  rw [h2] at h
  simp only [Option.some_bind] at h
  cases h3 : readComp 1 12 1 r2 with
  | none => rw [h3] at h; exact Option.noConfusion h
  | some p3 =>
  rw [h3] at h
  obtain ⟨mo, r3⟩ := p3
  simp only [Option.some_bind] at h
  cases h4 : expCh '-' r3 with
  | none => rw [h4] at h; exact Option.noConfusion h
  | some r4 =>
  rw [h4] at h
  simp only [Option.some_bind] at h
  cases h5 : readComp 1 31 1 r4 with
  | none => rw [h5] at h; exact Option.noConfusion h
  | some p5 =>
  rw [h5] at h
  obtain ⟨dy, r5⟩ := p5
  simp only [Option.some_bind] at h
  cases h6 : expWs r5 with
  | none => rw [h6] at h; exact Option.noConfusion h
  | some r6 =>
  rw [h6] at h
  simp only [Option.some_bind] at h
  cases h7 : readComp 0 23 0 r6 with
  | none => rw [h7] at h; exact Option.noConfusion h
  | some p7 =>
  rw [h7] at h
  obtain ⟨hh, r7⟩ := p7
  simp only [Option.some_bind] at h
  cases h8 : expCh ':' r7 with
  | none => rw [h8] at h; exact Option.noConfusion h
  | some r8 =>
  rw [h8] at h
  simp only [Option.some_bind] at h
  cases h9 : readComp 0 59 0 r8 with
  | none => rw [h9] at h; exact Option.noConfusion h
  | some p9 =>
  rw [h9] at h
  obtain ⟨mi, r9⟩ := p9
  simp only [Option.some_bind] at h
  cases h10 : expCh ':' r9 with
  | none => rw [h10] at h; exact Option.noConfusion h
  | some r10 =>
  rw [h10] at h
  simp only [Option.some_bind] at h
  cases h11 : readComp 0 61 0 r10 with
  | none => rw [h11] at h; exact Option.noConfusion h
  | some p11 =>
  rw [h11] at h
  obtain ⟨se, r11⟩ := p11
  simp only [Option.some_bind] at h
  by_cases hr : r11 = []
  · subst hr
    obtain ⟨d, hd, hdig⟩ := readComp_last h11
    obtain ⟨a, b, c, e, hcs, -⟩ := read4_shape h1
    obtain ⟨q2, he2⟩ := expCh_suffix h2
    obtain ⟨q3, he3⟩ := readComp_suffix h3
    obtain ⟨q4, he4⟩ := expCh_suffix h4
    obtain ⟨q5, he5⟩ := readComp_suffix h5
    obtain ⟨q6, he6⟩ := expWs_suffix h6
    obtain ⟨q7, he7⟩ := readComp_suffix h7
    obtain ⟨q8, he8⟩ := expCh_suffix h8
    obtain ⟨q9, he9⟩ := readComp_suffix h9
    obtain ⟨q10, he10⟩ := expCh_suffix h10
    refine ⟨d, ?_, hdig⟩
    rw [hcs]
    have l9 : r9.getLast? = some d := he10 ▸ getLast?_append_of_some hd
    have l8 : r8.getLast? = some d := he9 ▸ getLast?_append_of_some l9
    have l7 : r7.getLast? = some d := he8 ▸ getLast?_append_of_some l8
    have l6 : r6.getLast? = some d := he7 ▸ getLast?_append_of_some l7
    have l5 : r5.getLast? = some d := he6 ▸ getLast?_append_of_some l6
    have l4 : r4.getLast? = some d := he5 ▸ getLast?_append_of_some l5
    have l3 : r3.getLast? = some d := he4 ▸ getLast?_append_of_some l4
    have l2 : r2.getLast? = some d := he3 ▸ getLast?_append_of_some l3
    have l1 : r1.getLast? = some d := he2 ▸ getLast?_append_of_some l2
    show (a :: b :: c :: e :: r1).getLast? = some d
    exact @getLast?_append_of_some [a, b, c, e] r1 d l1
  · rw [if_neg hr] at h
    exact Option.noConfusion h

theorem pyStrptime_elim {cs : List Char} {t : DT} (h : pyStrptime cs = some t) :
    strptimeRe cs = some t ∧ ctorOk t = true := by
  unfold pyStrptime at h
  cases hre : strptimeRe cs with
  | none => rw [hre] at h; exact Option.noConfusion h
  | some t' =>
    rw [hre] at h
    have h' : (if ctorOk t' = true then some t' else none) = some t := h
    by_cases hc : ctorOk t' = true
    · rw [if_pos hc] at h'
      have ht : t' = t := Option.some.inj h'
      subst ht
      exact ⟨rfl, hc⟩
    · rw [if_neg hc] at h'
      exact Option.noConfusion h' 

theorem pyStrptime_head {cs : List Char} {t : DT} (h : pyStrptime cs = some t) :
    ∃ c r, cs = c :: r ∧ isDig c = true :=
  strptimeRe_head (pyStrptime_elim h).1

theorem pyStrptime_last {cs : List Char} {t : DT} (h : pyStrptime cs = some t) :
    ∃ d, cs.getLast? = some d ∧ isDig d = true :=
  strptimeRe_last (pyStrptime_elim h).1

/-! Elimination of a successful parse -/

theorem parse_some_shape {line : String} {r : LogRecord}
    (h : parse_log_line line = some r) :
    ∃ p0 p1 p2 p3 t,
      stripList line.data = p0 ++ ' ' :: (p1 ++ ' ' :: (p2 ++ ' ' :: p3)) ∧
      ' ' ∉ p0 ∧ ' ' ∉ p1 ∧ ' ' ∉ p2 ∧
      pyStrptime (p0 ++ ' ' :: p1) = some t ∧
      String.mk p2 ∈ LOG_LEVELS ∧
      r = ⟨String.mk (p0 ++ ' ' :: p1), String.mk p2, String.mk (stripList p3)⟩ := by
  unfold parse_log_line at h
  rcases hsp : splitSp 3 (stripList line.data) with
    - | ⟨q0, - | ⟨q1, - | ⟨q2, - | ⟨q3, - | ⟨q4, rest⟩⟩⟩⟩⟩
  · rw [hsp] at h; exact Option.noConfusion h
  · rw [hsp] at h; exact Option.noConfusion h
  · rw [hsp] at h; exact Option.noConfusion h
  · rw [hsp] at h; exact Option.noConfusion h
  · rw [hsp] at h
    have h' : (match pyStrptime (q0 ++ ' ' :: q1) with
        | some _ =>
          if String.mk q2 ∈ LOG_LEVELS then
            some (LogRecord.mk (String.mk (q0 ++ ' ' :: q1)) (String.mk q2)
              (String.mk (stripList q3)))
          else none
        | none => none) = some r := h
    cases hst : pyStrptime (q0 ++ ' ' :: q1) with
    | none => rw [hst] at h'; exact Option.noConfusion h'
    | some t =>
      rw [hst] at h'
      have h'' : (if String.mk q2 ∈ LOG_LEVELS then
          some (LogRecord.mk (String.mk (q0 ++ ' ' :: q1)) (String.mk q2)
            (String.mk (stripList q3)))
          else none) = some r := h'
      by_cases hlv : String.mk q2 ∈ LOG_LEVELS
      · rw [if_pos hlv] at h''
        obtain ⟨hcat, hm0, hm1, hm2⟩ := splitSp_three_eq hsp
        exact ⟨q0, q1, q2, q3, t, hcat, hm0, hm1, hm2, hst, hlv,
          (Option.some.inj h'').symm⟩
      · rw [if_neg hlv] at h''
        exact Option.noConfusion h''
  · rw [hsp] at h; exact Option.noConfusion h

/-- The converse construction: a stripped line of the right shape with a
valid token and level parses to the corresponding record. -/
theorem parse_of_shape {line : String} {p0 p1 p2 p3 : List Char} {t : DT}
    (hcat : stripList line.data = p0 ++ ' ' :: (p1 ++ ' ' :: (p2 ++ ' ' :: p3)))
    (hm0 : ' ' ∉ p0) (hm1 : ' ' ∉ p1) (hm2 : ' ' ∉ p2)
    (hst : pyStrptime (p0 ++ ' ' :: p1) = some t)
    (hlv : String.mk p2 ∈ LOG_LEVELS) :
    parse_log_line line =
      some ⟨String.mk (p0 ++ ' ' :: p1), String.mk p2, String.mk (stripList p3)⟩ := by
  have hstep : parse_log_line line =
      (match pyStrptime (p0 ++ ' ' :: p1) with
        | some _ =>
          if String.mk p2 ∈ LOG_LEVELS then
            some (LogRecord.mk (String.mk (p0 ++ ' ' :: p1)) (String.mk p2)
              (String.mk (stripList p3)))
          else none
        | none => none) := by
    unfold parse_log_line
    rw [hcat, splitSp_three_concat p3 hm0 hm1 hm2]
  rw [hstep, hst, if_pos hlv]

theorem cons_getLast?_some (x : Char) (xs : List Char) :
    ∃ v, (x :: xs).getLast? = some v := by
  induction xs generalizing x with
  | nil => exact ⟨x, rfl⟩
  | cons y ys ih =>
    rw [List.getLast?_cons_cons]
    exact ih y

theorem getLast?_cons_append_of_some {c : Char} {l r : List Char} {d : Char}
    (h : r.getLast? = some d) : (c :: (l ++ r)).getLast? = some d := by
  have : ([c] ++ (l ++ r)).getLast? = some d :=
    getLast?_append_of_some (getLast?_append_of_some h)
  simpa using this

/-- Everything a successful parse guarantees about the four fields. -/
theorem parse_full {line : String} {r : LogRecord}
    (h : parse_log_line line = some r) :
    ∃ p0 p1 p2 p3 t,
      stripList line.data = p0 ++ ' ' :: (p1 ++ ' ' :: (p2 ++ ' ' :: p3)) ∧
      ' ' ∉ p0 ∧ ' ' ∉ p1 ∧ ' ' ∉ p2 ∧
      pyStrptime (p0 ++ ' ' :: p1) = some t ∧
      String.mk p2 ∈ LOG_LEVELS ∧
      r = ⟨String.mk (p0 ++ ' ' :: p1), String.mk p2, String.mk (stripList p3)⟩ ∧
      (∃ c p0t, p0 = c :: p0t ∧ isDig c = true) ∧
      (∃ d, p1.getLast? = some d ∧ isDig d = true) ∧
      (∃ e, p3.getLast? = some e ∧ pyWs e = false) ∧
      stripList p3 ≠ [] := by
  obtain ⟨p0, p1, p2, p3, t, hcat, hm0, hm1, hm2, hst, hlv, hr⟩ := parse_some_shape h
  have hhead : ∃ c p0t, p0 = c :: p0t ∧ isDig c = true := by
    obtain ⟨c, rest0, htok, hcdig⟩ := pyStrptime_head hst
    cases p0 with
    | nil =>
      exfalso
      rw [List.nil_append] at htok
      have hc : c = ' ' := (List.cons.inj htok).1.symm
      rw [hc] at hcdig
      exact absurd hcdig (by decide)
    | cons a tl =>
      rw [List.cons_append] at htok
      exact ⟨a, tl, rfl, (List.cons.inj htok).1 ▸ hcdig⟩
  have hlast1 : ∃ d, p1.getLast? = some d ∧ isDig d = true := by
    obtain ⟨d, hdlast, hddig⟩ := pyStrptime_last hst
    cases hq : p1 with
    | nil =>
      exfalso
      rw [hq] at hdlast
      have hsp : (p0 ++ ' ' :: ([] : List Char)).getLast? = some ' ' :=
        getLast?_append_of_some rfl
      rw [hsp] at hdlast
      have hd : d = ' ' := (Option.some.inj hdlast).symm
      rw [hd] at hddig
      exact absurd hddig (by decide)
    | cons x xs =>
      obtain ⟨v, hv⟩ := cons_getLast?_some x xs
      have hS : (p0 ++ ' ' :: x :: xs).getLast? = some v :=
        getLast?_append_of_some (by rw [List.getLast?_cons_cons]; exact hv)
      rw [hq] at hdlast
      rw [hS] at hdlast
      exact ⟨d, (Option.some.inj hdlast) ▸ hv, hddig⟩
  have hlast3 : ∃ e, p3.getLast? = some e ∧ pyWs e = false := by
    obtain ⟨c, p0t, hp0, hcdig⟩ := hhead
    have hSshape : stripList line.data =
        c :: (p0t ++ ' ' :: (p1 ++ ' ' :: (p2 ++ ' ' :: p3))) := by
      rw [hcat, hp0, List.cons_append]
    obtain ⟨dS, hdS, hdSws⟩ := strip_last hSshape
    cases hq : p3 with
    | nil =>
      exfalso
      rw [hq] at hdS
      have hX : (c :: (p0t ++ ' ' :: (p1 ++ ' ' :: (p2 ++ ' ' ::
          ([] : List Char))))).getLast? = some ' ' :=
        getLast?_cons_append_of_some (getLast?_cons_append_of_some
          (getLast?_cons_append_of_some rfl))
      rw [hX] at hdS
      have hd : dS = ' ' := (Option.some.inj hdS).symm
      rw [hd, ws_space] at hdSws
      exact Bool.noConfusion hdSws
    | cons x xs =>
      obtain ⟨v, hv⟩ := cons_getLast?_some x xs
      have hv2 : (' ' :: x :: xs).getLast? = some v := by
        rw [List.getLast?_cons_cons]
        exact hv
      rw [hq] at hdS
      have hX : (c :: (p0t ++ ' ' :: (p1 ++ ' ' :: (p2 ++ ' ' ::
          (x :: xs))))).getLast? = some v :=
        getLast?_cons_append_of_some (getLast?_cons_append_of_some
          (getLast?_cons_append_of_some hv2))
      rw [hX] at hdS
      exact ⟨v, hv, (Option.some.inj hdS) ▸ hdSws⟩
  have hstrip3 : stripList p3 ≠ [] := by
    obtain ⟨e, he, hews⟩ := hlast3
    intro hnil
    have hall := strip_all_ws_iff.mp hnil e (mem_of_getLast? he)
    rw [hews] at hall
    exact Bool.noConfusion hall
  exact ⟨p0, p1, p2, p3, t, hcat, hm0, hm1, hm2, hst, hlv, hr,
    hhead, hlast1, hlast3, hstrip3⟩

theorem data_append (s t : String) : (s ++ t).data = s.data ++ t.data := rfl

theorem reserialize_data (r : LogRecord) :
    (reserialize r).data =
      r.date.data ++ ' ' :: (r.level.data ++ ' ' :: r.message.data) := by
  have hsp : (" " : String).data = [' '] := rfl
  simp [reserialize, data_append, hsp, List.append_assoc]

/-- Round trip: re-serializing an accepted record and parsing again gives
back the same record. -/
theorem parse_roundtrip {line : String} {r : LogRecord}
    (h : parse_log_line line = some r) :
    parse_log_line (reserialize r) = some r := by
  obtain ⟨p0, p1, p2, p3, t, hcat, hm0, hm1, hm2, hst, hlv, hr, hhead,
    hlast1, hlast3, hstrip3⟩ := parse_full h
  subst hr
  obtain ⟨c, p0t, hp0, hcdig⟩ := hhead
  have hser : (reserialize ⟨String.mk (p0 ++ ' ' :: p1), String.mk p2,
      String.mk (stripList p3)⟩).data =
      p0 ++ ' ' :: (p1 ++ ' ' :: (p2 ++ ' ' :: stripList p3)) := by
    rw [reserialize_data]
    simp [List.append_assoc]
  obtain ⟨m0, mr, hm⟩ : ∃ m0 mr, stripList p3 = m0 :: mr := by
    cases hq : stripList p3 with
    | nil => exact absurd hq hstrip3
    | cons a b => exact ⟨a, b, rfl⟩
  have hm0ws : pyWs m0 = false := strip_head hm
  obtain ⟨me, hme, hmews⟩ := strip_last hm
  have hhd : ((reserialize ⟨String.mk (p0 ++ ' ' :: p1), String.mk p2,
      String.mk (stripList p3)⟩).data).head? = some c := by
    rw [hser, hp0, List.cons_append]
    rfl
  have hlst : ((reserialize ⟨String.mk (p0 ++ ' ' :: p1), String.mk p2,
      String.mk (stripList p3)⟩).data).getLast? = some me := by
    rw [hser, hp0, List.cons_append]
    have hinner : (' ' :: stripList p3).getLast? = some me := by
      rw [hm, List.getLast?_cons_cons]
      exact hme
    exact getLast?_cons_append_of_some (getLast?_cons_append_of_some
      (getLast?_cons_append_of_some hinner))
  have hstripId : stripList (reserialize ⟨String.mk (p0 ++ ' ' :: p1),
      String.mk p2, String.mk (stripList p3)⟩).data =
      (reserialize ⟨String.mk (p0 ++ ' ' :: p1), String.mk p2,
        String.mk (stripList p3)⟩).data :=
    stripList_eq_self hhd (isDig_not_ws hcdig) hlst hmews
  have hcat2 : stripList (reserialize ⟨String.mk (p0 ++ ' ' :: p1),
      String.mk p2, String.mk (stripList p3)⟩).data =
      p0 ++ ' ' :: (p1 ++ ' ' :: (p2 ++ ' ' :: stripList p3)) := by
    rw [hstripId, hser]
  have hparse := parse_of_shape hcat2 hm0 hm1 hm2 hst hlv
  rw [hparse, strip_idem p3]

/-! Whitespace-token counting -/

theorem tokAux_append_space (a : List Char) (b : Bool) (rest : List Char) :
    tokAux b (a ++ ' ' :: rest) = tokAux b a + tokAux false rest := by
  induction a generalizing b with
  | nil =>
    rw [List.nil_append]
    simp [tokAux, ws_space]
  | cons c a' ih =>
    rw [List.cons_append]
    by_cases hc : pyWs c = true
    · simp only [tokAux, if_pos hc]
      exact ih false
    · simp only [tokAux, if_neg hc]
      rw [ih true, Nat.add_assoc]

theorem tokAux_all_ws {s : List Char} (h : ∀ c ∈ s, pyWs c = true)
    (b : Bool) : tokAux b s = 0 := by
  induction s generalizing b with
  | nil => rfl
  | cons c rest ih =>
    simp only [tokAux, if_pos (h c (List.mem_cons_self c rest))]
    exact ih (fun x hx => h x (List.mem_cons_of_mem c hx)) false

theorem tokAux_append_ws_right {s : List Char} (h : ∀ c ∈ s, pyWs c = true)
    (x : List Char) (b : Bool) : tokAux b (x ++ s) = tokAux b x := by
  induction x generalizing b with
  | nil =>
    rw [List.nil_append, tokAux_all_ws h]
    rfl
  | cons c x' ih =>
    rw [List.cons_append]
    by_cases hc : pyWs c = true
    · simp only [tokAux, if_pos hc]
      exact ih false
    · simp only [tokAux, if_neg hc]
      rw [ih true]

theorem tokAux_ws_left {s : List Char} (h : ∀ c ∈ s, pyWs c = true)
    (x : List Char) : tokAux false (s ++ x) = tokAux false x := by
  induction s with
  | nil => rw [List.nil_append]
  | cons c rest ih =>
    rw [List.cons_append]
    simp only [tokAux, if_pos (h c (List.mem_cons_self c rest))]
    exact ih (fun y hy => h y (List.mem_cons_of_mem c hy))

theorem tokAux_pos {cs : List Char} (h : ∃ c ∈ cs, pyWs c = false) :
    1 ≤ tokAux false cs := by
  induction cs with
  | nil => simp at h
  | cons c rest ih =>
    by_cases hc : pyWs c = true
    · simp only [tokAux, if_pos hc]
      obtain ⟨w, hw, hwf⟩ := h
      rcases List.mem_cons.mp hw with h' | h'
      · rw [h'] at hwf; rw [hwf] at hc; exact Bool.noConfusion hc
      · exact ih ⟨w, h', hwf⟩
    · simp only [tokAux, if_neg hc]
      simp

theorem tokCount_eq_strip (line : String) :
    tokCount line = tokAux false (stripList line.data) := by
  unfold tokCount
  have h1 : line.data = line.data.takeWhile pyWs ++ line.data.dropWhile pyWs :=
    (List.takeWhile_append_dropWhile pyWs line.data).symm
  obtain ⟨t, ht, htws⟩ := dropWhile_eq_strip_append line.data
  calc tokAux false line.data
      = tokAux false (line.data.takeWhile pyWs ++ line.data.dropWhile pyWs) := by
        rw [← h1]
    _ = tokAux false (line.data.dropWhile pyWs) :=
        tokAux_ws_left (fun c hc => List.mem_takeWhile_imp hc) _
    _ = tokAux false (stripList line.data ++ t) := by rw [ht]
    _ = tokAux false (stripList line.data) := tokAux_append_ws_right htws _ _

theorem level_has_nonws {p2 : List Char} (h : String.mk p2 ∈ LOG_LEVELS) :
    ∃ c ∈ p2, pyWs c = false := by
  have := h
  simp only [LOG_LEVELS, List.mem_cons, List.mem_singleton] at this
  rcases this with h' | h' | h' | h' | h'
  · rw [show p2 = ("INFO" : String).data from congrArg String.data h']; decide
  · rw [show p2 = ("DEBUG" : String).data from congrArg String.data h']; decide
  · rw [show p2 = ("ERROR" : String).data from congrArg String.data h']; decide
  · rw [show p2 = ("WARNING" : String).data from congrArg String.data h']; decide
  · exact absurd h' (by simp)

/-- An accepted line has at least 4 whitespace-delimited tokens. -/
theorem parse_some_tokCount {line : String} {r : LogRecord}
    (h : parse_log_line line = some r) : 4 ≤ tokCount line := by
  obtain ⟨p0, p1, p2, p3, t, hcat, hm0, hm1, hm2, hst, hlv, hr, hhead,
    hlast1, hlast3, hstrip3⟩ := parse_full h
  rw [tokCount_eq_strip, hcat, tokAux_append_space, tokAux_append_space,
    tokAux_append_space]
  have h0 : 1 ≤ tokAux false p0 := by
    obtain ⟨c, p0t, hp0, hcdig⟩ := hhead
    exact tokAux_pos ⟨c, hp0 ▸ List.mem_cons_self c p0t, isDig_not_ws hcdig⟩
  have h1 : 1 ≤ tokAux false p1 := by
    obtain ⟨d, hd, hddig⟩ := hlast1
    exact tokAux_pos ⟨d, mem_of_getLast? hd, isDig_not_ws hddig⟩
  have h2 : 1 ≤ tokAux false p2 := by
    obtain ⟨c, hc, hcf⟩ := level_has_nonws hlv
    exact tokAux_pos ⟨c, hc, hcf⟩
  have h3 : 1 ≤ tokAux false p3 := by
    obtain ⟨e, he, hews⟩ := hlast3
    exact tokAux_pos ⟨e, mem_of_getLast? he, hews⟩
  omega

/-! The lexicographic string order used by the timestamp sort -/

theorem lexLt_asymm {a : List Char} : ∀ {b}, lexLt a b = true → lexLt b a = false := by
  induction a with
  | nil =>
    intro b h
    cases b with
    | nil => simp [lexLt] at h
    | cons y ys => simp [lexLt]
  | cons x xs ih =>
    intro b h
    cases b with
    | nil => simp [lexLt] at h
    | cons y ys =>
      simp only [lexLt] at h ⊢
      by_cases h1 : x.toNat < y.toNat
      · rw [if_neg (show ¬ y.toNat < x.toNat by omega), if_pos h1]
      · rw [if_neg h1] at h
        by_cases h2 : y.toNat < x.toNat
        · rw [if_pos h2] at h
          exact Bool.noConfusion h
        · rw [if_neg h2] at h
          rw [if_neg h2, if_neg h1]
          exact ih h

theorem lexLt_connex {a : List Char} :
    ∀ {b}, lexLt a b = false → lexLt b a = false → a = b := by
  induction a with
  | nil =>
    intro b h1 h2
    cases b with
    | nil => rfl
    | cons y ys => simp [lexLt] at h1
  | cons x xs ih =>
    intro b h1 h2
    cases b with
    | nil => simp [lexLt] at h2
    | cons y ys =>
      simp only [lexLt] at h1 h2
      by_cases hxy : x.toNat < y.toNat
      · rw [if_pos hxy] at h1
        exact Bool.noConfusion h1
      · by_cases hyx : y.toNat < x.toNat
        · rw [if_pos hyx] at h2
          exact Bool.noConfusion h2
        · rw [if_neg hxy, if_neg hyx] at h1
          rw [if_neg hyx, if_neg hxy] at h2
          have hx : x = y := char_toNat_inj (by omega)
          rw [hx, ih h1 h2]

theorem lexLt_trans {a : List Char} :
    ∀ {b c}, lexLt a b = true → lexLt b c = true → lexLt a c = true := by
  induction a with
  | nil =>
    intro b c h1 h2
    cases b with
    | nil => simp [lexLt] at h1
    | cons y ys =>
      cases c with
      | nil => simp [lexLt] at h2
      | cons z zs => simp [lexLt]
  | cons x xs ih =>
    intro b c h1 h2
    cases b with
    | nil => simp [lexLt] at h1
    | cons y ys =>
      cases c with
      | nil => simp [lexLt] at h2
      | cons z zs =>
        simp only [lexLt] at h1 h2 ⊢
        by_cases hxy : x.toNat < y.toNat
        · by_cases hyz : y.toNat < z.toNat
          · rw [if_pos (show x.toNat < z.toNat by omega)]
          · rw [if_neg hyz] at h2
            by_cases hzy : z.toNat < y.toNat
            · rw [if_pos hzy] at h2
              exact Bool.noConfusion h2
            · rw [if_pos (show x.toNat < z.toNat by omega)]
        · rw [if_neg hxy] at h1
          by_cases hyx : y.toNat < x.toNat
          · rw [if_pos hyx] at h1
            exact Bool.noConfusion h1
          · rw [if_neg hyx] at h1
            by_cases hyz : y.toNat < z.toNat
            · rw [if_pos (show x.toNat < z.toNat by omega)]
            · rw [if_neg hyz] at h2
              by_cases hzy : z.toNat < y.toNat
              · rw [if_pos hzy] at h2
                exact Bool.noConfusion h2
              · rw [if_neg hzy] at h2
                rw [if_neg (show ¬ x.toNat < z.toNat by omega),
                  if_neg (show ¬ z.toNat < x.toNat by omega)]
                exact ih h1 h2

theorem bool_not_false_eq_true {x : Bool} (h : ¬ x = false) : x = true := by
  cases x with
  | false => exact absurd rfl h
  | true => rfl

instance : IsTotal LogRecord dateLe :=
  ⟨fun a b => by
    unfold dateLe
    by_cases h : lexLt b.date.data a.date.data = false
    · exact Or.inl h
    · exact Or.inr (lexLt_asymm (bool_not_false_eq_true h))⟩

instance : IsTrans LogRecord dateLe :=
  ⟨fun a b c hab hbc => by
    unfold dateLe at hab hbc ⊢
    cases hca : lexLt c.date.data a.date.data with
    | false => rfl
    | true =>
      exfalso
      by_cases hab' : lexLt a.date.data b.date.data = true
      · have hcb := lexLt_trans hca hab'
        rw [hcb] at hbc
        exact Bool.noConfusion hbc
      · have haf : lexLt a.date.data b.date.data = false := by
          cases hx : lexLt a.date.data b.date.data with
          | false => rfl
          | true => exact absurd hx hab'
        have heq := lexLt_connex haf hab
        rw [heq] at hca
        rw [hca] at hbc
        exact Bool.noConfusion hbc⟩

theorem isDig_bounds {c : Char} (h : isDig c = true) :
    48 ≤ c.toNat ∧ c.toNat ≤ 57 := by
  simpa [isDig, Bool.and_eq_true, decide_eq_true_eq] using h

theorem isStrictToken_elim {s : String} (h : isStrictToken s = true) :
    ∃ y1 y2 y3 y4 m1 m2 d1 d2 k1 k2 n1 n2 e1 e2,
      s.data = [y1, y2, y3, y4, '-', m1, m2, '-', d1, d2, ' ',
        k1, k2, ':', n1, n2, ':', e1, e2] ∧
      isDig y1 = true ∧ isDig y2 = true ∧ isDig y3 = true ∧ isDig y4 = true ∧
      isDig m1 = true ∧ isDig m2 = true ∧ isDig d1 = true ∧ isDig d2 = true ∧
      isDig k1 = true ∧ isDig k2 = true ∧ isDig n1 = true ∧ isDig n2 = true ∧
      isDig e1 = true ∧ isDig e2 = true := by
  unfold isStrictToken at h
  split at h
  next y1 y2 y3 y4 s1 m1 m2 s2 d1 d2 s3 k1 k2 s4 n1 n2 s5 e1 e2 heq =>
    simp only [Bool.and_eq_true, decide_eq_true_eq] at h
    obtain ⟨h, hs5⟩ := h
    obtain ⟨h, hs4⟩ := h
    obtain ⟨h, hs3⟩ := h
    obtain ⟨h, hs2⟩ := h
    obtain ⟨h, hs1⟩ := h
    obtain ⟨h, he2⟩ := h
    obtain ⟨h, he1⟩ := h
    obtain ⟨h, hn2⟩ := h
    obtain ⟨h, hn1⟩ := h
    obtain ⟨h, hk2⟩ := h
    obtain ⟨h, hk1⟩ := h
    obtain ⟨h, hd2⟩ := h
    obtain ⟨h, hd1⟩ := h
    obtain ⟨h, hm2⟩ := h
    obtain ⟨h, hm1⟩ := h
    obtain ⟨h, hy4⟩ := h
    obtain ⟨h, hy3⟩ := h
    obtain ⟨hy1, hy2⟩ := h
    subst hs1
    subst hs2
    subst hs3
    subst hs4
    subst hs5
    exact ⟨y1, y2, y3, y4, m1, m2, d1, d2, k1, k2, n1, n2, e1, e2, heq,
      hy1, hy2, hy3, hy4, hm1, hm2, hd1, hd2, hk1, hk2, hn1, hn2, he1, he2⟩
  next => exact Bool.noConfusion h

theorem dval_le9 {c : Char} (h : isDig c = true) : dval c ≤ 9 := by
  have := isDig_bounds h
  unfold dval
  omega

theorem lexLt_cons_same (c : Char) (r s : List Char) :
    lexLt (c :: r) (c :: s) = lexLt r s := by
  simp only [lexLt]
  rw [if_neg (show ¬ c.toNat < c.toNat by omega),
    if_neg (show ¬ c.toNat < c.toNat by omega)]

theorem lexLt_nil_iff : (lexLt ([] : List Char) [] = true) ↔ False := by
  simp [lexLt]

/-- Comparing two two-digit blocks lexicographically is comparing their
values, ties deferring to the remainder. -/
theorem lexLt_two {a1 a2 b1 b2 : Char} {r s : List Char}
    (ha1 : isDig a1 = true) (ha2 : isDig a2 = true)
    (hb1 : isDig b1 = true) (hb2 : isDig b2 = true) :
    (lexLt (a1 :: a2 :: r) (b1 :: b2 :: s) = true) ↔
      (dval a1 * 10 + dval a2 < dval b1 * 10 + dval b2 ∨
        (dval a1 * 10 + dval a2 = dval b1 * 10 + dval b2 ∧ lexLt r s = true)) := by
  obtain ⟨ha1l, ha1r⟩ := isDig_bounds ha1
  obtain ⟨ha2l, ha2r⟩ := isDig_bounds ha2
  obtain ⟨hb1l, hb1r⟩ := isDig_bounds hb1
  obtain ⟨hb2l, hb2r⟩ := isDig_bounds hb2
  simp only [lexLt]
  by_cases h1 : a1.toNat < b1.toNat
  · rw [if_pos h1]
    constructor
    · intro _
      left
      simp only [dval]
      omega
    · intro _
      rfl
  · rw [if_neg h1]
    by_cases h2 : b1.toNat < a1.toNat
    · rw [if_pos h2]
      constructor
      · intro h'
        exact Bool.noConfusion h'
      · intro h'
        exfalso
        simp only [dval] at h'
        rcases h' with h' | ⟨h', -⟩ <;> omega
    · rw [if_neg h2]
      by_cases h3 : a2.toNat < b2.toNat
      · rw [if_pos h3]
        constructor
        · intro _
          left
          simp only [dval]
          omega
        · intro _
          rfl
      · rw [if_neg h3]
        by_cases h4 : b2.toNat < a2.toNat
        · rw [if_pos h4]
          constructor
          · intro h'
            exact Bool.noConfusion h'
          · intro h'
            exfalso
            simp only [dval] at h'
            rcases h' with h' | ⟨h', -⟩ <;> omega
        · rw [if_neg h4]
          constructor
          · intro h'
            right
            refine ⟨?_, h'⟩
            simp only [dval]
            omega
          · intro h'
            rcases h' with h' | ⟨-, h'⟩
            · exfalso
              simp only [dval] at h'
              omega
            · exact h'

/-- Positional decomposition: one base-`K` digit followed by a remainder
below `K` compares like the combined value. -/
theorem stepK {K x X r s : Nat} (hr : r < K) (hs : s < K) {P : Prop}
    (hP : P ↔ r < s) :
    (x < X ∨ (x = X ∧ P)) ↔ x * K + r < X * K + s := by
  rw [hP]
  constructor
  · rintro (h | ⟨rfl, h⟩)
    · have hmul : (x + 1) * K = x * K + K := by ring
      have h2 : (x + 1) * K ≤ X * K := Nat.mul_le_mul_right K h
      omega
    · omega
  · intro h
    rcases Nat.lt_trichotomy x X with hx | hx | hx
    · exact Or.inl hx
    · subst hx
      exact Or.inr ⟨rfl, by omega⟩
    · exfalso
      have hmul : (X + 1) * K = X * K + K := by ring
      have h2 : (X + 1) * K ≤ x * K := Nat.mul_le_mul_right K hx
      omega

/-- For strict zero-padded tokens, the lexicographic string order agrees
with the chronological rank read from the digits. -/
theorem strict_lexLt_iff {sa sb : String}
    (ha : isStrictToken sa = true) (hb : isStrictToken sb = true) :
    lexLt sa.data sb.data = true ↔ strictRank sa < strictRank sb := by
  obtain ⟨y1, y2, y3, y4, m1, m2, d1, d2, k1, k2, n1, n2, e1, e2, hsa, a1, a2, a3, a4, a5, a6, a7, a8, a9, a10, a11, a12, a13, a14⟩ := isStrictToken_elim ha
  obtain ⟨Y1, Y2, Y3, Y4, M1, M2, D1, D2, K1, K2, N1, N2, E1, E2, hsb, b1, b2, b3, b4, b5, b6, b7, b8, b9, b10, b11, b12, b13, b14⟩ := isStrictToken_elim hb
  have hra : strictRank sa = dtRank ⟨((dval y1 * 10 + dval y2) * 10 + dval y3) * 10 + dval y4,
      dval m1 * 10 + dval m2, dval d1 * 10 + dval d2, dval k1 * 10 + dval k2,
      dval n1 * 10 + dval n2, dval e1 * 10 + dval e2⟩ := by
    unfold strictRank
    rw [hsa]
  have hrb : strictRank sb = dtRank ⟨((dval Y1 * 10 + dval Y2) * 10 + dval Y3) * 10 + dval Y4,
      dval M1 * 10 + dval M2, dval D1 * 10 + dval D2, dval K1 * 10 + dval K2,
      dval N1 * 10 + dval N2, dval E1 * 10 + dval E2⟩ := by
    unfold strictRank
    rw [hsb]
  have ka1 := dval_le9 a1
  have ka2 := dval_le9 a2
  have ka3 := dval_le9 a3
  have ka4 := dval_le9 a4
  have ka5 := dval_le9 a5
  have ka6 := dval_le9 a6
  have ka7 := dval_le9 a7
  have ka8 := dval_le9 a8
  have ka9 := dval_le9 a9
  have ka10 := dval_le9 a10
  have ka11 := dval_le9 a11
  have ka12 := dval_le9 a12
  have ka13 := dval_le9 a13
  have ka14 := dval_le9 a14
  have kb1 := dval_le9 b1
  have kb2 := dval_le9 b2
  have kb3 := dval_le9 b3
  have kb4 := dval_le9 b4
  have kb5 := dval_le9 b5
  have kb6 := dval_le9 b6
  have kb7 := dval_le9 b7
  have kb8 := dval_le9 b8
  have kb9 := dval_le9 b9
  have kb10 := dval_le9 b10
  have kb11 := dval_le9 b11
  have kb12 := dval_le9 b12
  have kb13 := dval_le9 b13
  have kb14 := dval_le9 b14
  rw [hsa, hsb, hra, hrb]
  rw [lexLt_two a1 a2 b1 b2, lexLt_two a3 a4 b3 b4, lexLt_cons_same,
    lexLt_two a5 a6 b5 b6, lexLt_cons_same, lexLt_two a7 a8 b7 b8,
    lexLt_cons_same, lexLt_two a9 a10 b9 b10, lexLt_cons_same,
    lexLt_two a11 a12 b11 b12, lexLt_cons_same, lexLt_two a13 a14 b13 b14,
    lexLt_nil_iff]
  have i7 : ((dval e1 * 10 + dval e2) < (dval E1 * 10 + dval E2) ∨ ((dval e1 * 10 + dval e2) = (dval E1 * 10 + dval E2) ∧ False)) ↔ (dval e1 * 10 + dval e2) < (dval E1 * 10 + dval E2) := by
    simp only [and_false, or_false]
  have i6 : ((dval n1 * 10 + dval n2) < (dval N1 * 10 + dval N2) ∨ ((dval n1 * 10 + dval n2) = (dval N1 * 10 + dval N2) ∧ ((dval e1 * 10 + dval e2) < (dval E1 * 10 + dval E2) ∨ ((dval e1 * 10 + dval e2) = (dval E1 * 10 + dval E2) ∧ False)))) ↔ ((dval n1 * 10 + dval n2) * 100 + (dval e1 * 10 + dval e2)) < ((dval N1 * 10 + dval N2) * 100 + (dval E1 * 10 + dval E2)) :=
    stepK (by omega) (by omega) i7
  have i5 : ((dval k1 * 10 + dval k2) < (dval K1 * 10 + dval K2) ∨ ((dval k1 * 10 + dval k2) = (dval K1 * 10 + dval K2) ∧ ((dval n1 * 10 + dval n2) < (dval N1 * 10 + dval N2) ∨ ((dval n1 * 10 + dval n2) = (dval N1 * 10 + dval N2) ∧ ((dval e1 * 10 + dval e2) < (dval E1 * 10 + dval E2) ∨ ((dval e1 * 10 + dval e2) = (dval E1 * 10 + dval E2) ∧ False)))))) ↔ ((dval k1 * 10 + dval k2) * 10000 + ((dval n1 * 10 + dval n2) * 100 + (dval e1 * 10 + dval e2))) < ((dval K1 * 10 + dval K2) * 10000 + ((dval N1 * 10 + dval N2) * 100 + (dval E1 * 10 + dval E2))) :=
    stepK (by omega) (by omega) i6
  have i4 : ((dval d1 * 10 + dval d2) < (dval D1 * 10 + dval D2) ∨ ((dval d1 * 10 + dval d2) = (dval D1 * 10 + dval D2) ∧ ((dval k1 * 10 + dval k2) < (dval K1 * 10 + dval K2) ∨ ((dval k1 * 10 + dval k2) = (dval K1 * 10 + dval K2) ∧ ((dval n1 * 10 + dval n2) < (dval N1 * 10 + dval N2) ∨ ((dval n1 * 10 + dval n2) = (dval N1 * 10 + dval N2) ∧ ((dval e1 * 10 + dval e2) < (dval E1 * 10 + dval E2) ∨ ((dval e1 * 10 + dval e2) = (dval E1 * 10 + dval E2) ∧ False)))))))) ↔ ((dval d1 * 10 + dval d2) * 1000000 + ((dval k1 * 10 + dval k2) * 10000 + ((dval n1 * 10 + dval n2) * 100 + (dval e1 * 10 + dval e2)))) < ((dval D1 * 10 + dval D2) * 1000000 + ((dval K1 * 10 + dval K2) * 10000 + ((dval N1 * 10 + dval N2) * 100 + (dval E1 * 10 + dval E2)))) :=
    stepK (by omega) (by omega) i5
  have i3 : ((dval m1 * 10 + dval m2) < (dval M1 * 10 + dval M2) ∨ ((dval m1 * 10 + dval m2) = (dval M1 * 10 + dval M2) ∧ ((dval d1 * 10 + dval d2) < (dval D1 * 10 + dval D2) ∨ ((dval d1 * 10 + dval d2) = (dval D1 * 10 + dval D2) ∧ ((dval k1 * 10 + dval k2) < (dval K1 * 10 + dval K2) ∨ ((dval k1 * 10 + dval k2) = (dval K1 * 10 + dval K2) ∧ ((dval n1 * 10 + dval n2) < (dval N1 * 10 + dval N2) ∨ ((dval n1 * 10 + dval n2) = (dval N1 * 10 + dval N2) ∧ ((dval e1 * 10 + dval e2) < (dval E1 * 10 + dval E2) ∨ ((dval e1 * 10 + dval e2) = (dval E1 * 10 + dval E2) ∧ False)))))))))) ↔ ((dval m1 * 10 + dval m2) * 100000000 + ((dval d1 * 10 + dval d2) * 1000000 + ((dval k1 * 10 + dval k2) * 10000 + ((dval n1 * 10 + dval n2) * 100 + (dval e1 * 10 + dval e2))))) < ((dval M1 * 10 + dval M2) * 100000000 + ((dval D1 * 10 + dval D2) * 1000000 + ((dval K1 * 10 + dval K2) * 10000 + ((dval N1 * 10 + dval N2) * 100 + (dval E1 * 10 + dval E2))))) :=
    stepK (by omega) (by omega) i4
  have i2 : ((dval y3 * 10 + dval y4) < (dval Y3 * 10 + dval Y4) ∨ ((dval y3 * 10 + dval y4) = (dval Y3 * 10 + dval Y4) ∧ ((dval m1 * 10 + dval m2) < (dval M1 * 10 + dval M2) ∨ ((dval m1 * 10 + dval m2) = (dval M1 * 10 + dval M2) ∧ ((dval d1 * 10 + dval d2) < (dval D1 * 10 + dval D2) ∨ ((dval d1 * 10 + dval d2) = (dval D1 * 10 + dval D2) ∧ ((dval k1 * 10 + dval k2) < (dval K1 * 10 + dval K2) ∨ ((dval k1 * 10 + dval k2) = (dval K1 * 10 + dval K2) ∧ ((dval n1 * 10 + dval n2) < (dval N1 * 10 + dval N2) ∨ ((dval n1 * 10 + dval n2) = (dval N1 * 10 + dval N2) ∧ ((dval e1 * 10 + dval e2) < (dval E1 * 10 + dval E2) ∨ ((dval e1 * 10 + dval e2) = (dval E1 * 10 + dval E2) ∧ False)))))))))))) ↔ ((dval y3 * 10 + dval y4) * 10000000000 + ((dval m1 * 10 + dval m2) * 100000000 + ((dval d1 * 10 + dval d2) * 1000000 + ((dval k1 * 10 + dval k2) * 10000 + ((dval n1 * 10 + dval n2) * 100 + (dval e1 * 10 + dval e2)))))) < ((dval Y3 * 10 + dval Y4) * 10000000000 + ((dval M1 * 10 + dval M2) * 100000000 + ((dval D1 * 10 + dval D2) * 1000000 + ((dval K1 * 10 + dval K2) * 10000 + ((dval N1 * 10 + dval N2) * 100 + (dval E1 * 10 + dval E2)))))) :=
    stepK (by omega) (by omega) i3
  have i1 : ((dval y1 * 10 + dval y2) < (dval Y1 * 10 + dval Y2) ∨ ((dval y1 * 10 + dval y2) = (dval Y1 * 10 + dval Y2) ∧ ((dval y3 * 10 + dval y4) < (dval Y3 * 10 + dval Y4) ∨ ((dval y3 * 10 + dval y4) = (dval Y3 * 10 + dval Y4) ∧ ((dval m1 * 10 + dval m2) < (dval M1 * 10 + dval M2) ∨ ((dval m1 * 10 + dval m2) = (dval M1 * 10 + dval M2) ∧ ((dval d1 * 10 + dval d2) < (dval D1 * 10 + dval D2) ∨ ((dval d1 * 10 + dval d2) = (dval D1 * 10 + dval D2) ∧ ((dval k1 * 10 + dval k2) < (dval K1 * 10 + dval K2) ∨ ((dval k1 * 10 + dval k2) = (dval K1 * 10 + dval K2) ∧ ((dval n1 * 10 + dval n2) < (dval N1 * 10 + dval N2) ∨ ((dval n1 * 10 + dval n2) = (dval N1 * 10 + dval N2) ∧ ((dval e1 * 10 + dval e2) < (dval E1 * 10 + dval E2) ∨ ((dval e1 * 10 + dval e2) = (dval E1 * 10 + dval E2) ∧ False)))))))))))))) ↔ ((dval y1 * 10 + dval y2) * 1000000000000 + ((dval y3 * 10 + dval y4) * 10000000000 + ((dval m1 * 10 + dval m2) * 100000000 + ((dval d1 * 10 + dval d2) * 1000000 + ((dval k1 * 10 + dval k2) * 10000 + ((dval n1 * 10 + dval n2) * 100 + (dval e1 * 10 + dval e2))))))) < ((dval Y1 * 10 + dval Y2) * 1000000000000 + ((dval Y3 * 10 + dval Y4) * 10000000000 + ((dval M1 * 10 + dval M2) * 100000000 + ((dval D1 * 10 + dval D2) * 1000000 + ((dval K1 * 10 + dval K2) * 10000 + ((dval N1 * 10 + dval N2) * 100 + (dval E1 * 10 + dval E2))))))) :=
    stepK (by omega) (by omega) i2
  rw [i1]
  simp only [dtRank]
  omega

/-! Symbolic evaluation of strptime on a strict token -/

theorem expCh_cons_self (c : Char) (R : List Char) : expCh c (c :: R) = some R := by
  simp [expCh]

theorem expWs_sp {x : Char} (R : List Char) (hx : isDig x = true) :
    expWs (' ' :: x :: R) = some (x :: R) := by
  simp only [expWs, if_pos ws_space]
  rw [dropWhile_of_head_false (isDig_not_ws hx)]

theorem read4_digits {a b c d : Char} (R : List Char)
    (ha : isDig a = true) (hb : isDig b = true)
    (hc : isDig c = true) (hd : isDig d = true) :
    read4 (a :: b :: c :: d :: R) =
      some (((dval a * 10 + dval b) * 10 + dval c) * 10 + dval d, R) := by
  simp only [read4]
  rw [if_pos (by rw [ha, hb, hc, hd]; rfl)]

theorem readComp_two {lo2 hi2 lo1 : Nat} {c1 c2 : Char} (R : List Char)
    (h1 : isDig c1 = true) (h2 : isDig c2 = true)
    (hcond : lo2 ≤ dval c1 * 10 + dval c2 ∧ dval c1 * 10 + dval c2 ≤ hi2) :
    readComp lo2 hi2 lo1 (c1 :: c2 :: R) = some (dval c1 * 10 + dval c2, R) := by
  simp only [readComp]
  rw [if_pos h1, if_pos h2, if_pos (by simpa using hcond)]

theorem readComp_two_none {lo2 hi2 lo1 : Nat} {c1 c2 : Char} (R : List Char)
    (h1 : isDig c1 = true) (h2 : isDig c2 = true)
    (hcond : ¬ (lo2 ≤ dval c1 * 10 + dval c2 ∧ dval c1 * 10 + dval c2 ≤ hi2)) :
    readComp lo2 hi2 lo1 (c1 :: c2 :: R) = none := by
  simp only [readComp]
  rw [if_pos h1, if_pos h2, if_neg (by simpa using hcond)]

/-- On a strict token that strptime accepts, the parsed components are
exactly the digit values, so the chronological rank of the parsed
date-time equals the rank read from the digits. -/
theorem strict_strptime_rank {s : String} {t : DT}
    (hstrict : isStrictToken s = true) (h : pyStrptime s.data = some t) :
    dtRank t = strictRank s := by
  obtain ⟨y1, y2, y3, y4, m1, m2, d1, d2, k1, k2, n1, n2, e1, e2, hsa, a1, a2, a3, a4, a5, a6, a7, a8, a9, a10, a11, a12, a13, a14⟩ := isStrictToken_elim hstrict
  obtain ⟨hre, -⟩ := pyStrptime_elim h
  rw [hsa] at hre
  have hra : strictRank s = dtRank ⟨((dval y1 * 10 + dval y2) * 10 + dval y3) * 10 + dval y4,
      dval m1 * 10 + dval m2, dval d1 * 10 + dval d2, dval k1 * 10 + dval k2, dval n1 * 10 + dval n2, dval e1 * 10 + dval e2⟩ := by
    unfold strictRank
    rw [hsa]
  unfold strptimeRe at hre
  rw [read4_digits _ a1 a2 a3 a4] at hre
  simp only [Option.pure_def, Option.bind_eq_bind, Option.some_bind] at hre
  rw [expCh_cons_self] at hre
  simp only [Option.some_bind] at hre
  by_cases hM : 1 ≤ dval m1 * 10 + dval m2 ∧ dval m1 * 10 + dval m2 ≤ 12
  case neg =>
    rw [readComp_two_none _ a5 a6 hM] at hre
    simp only [Option.none_bind] at hre
    exact Option.noConfusion hre
  case pos =>
  rw [readComp_two _ a5 a6 hM] at hre
  simp only [Option.some_bind] at hre
  rw [expCh_cons_self] at hre
  simp only [Option.some_bind] at hre
  by_cases hD : 1 ≤ dval d1 * 10 + dval d2 ∧ dval d1 * 10 + dval d2 ≤ 31
  case neg =>
    rw [readComp_two_none _ a7 a8 hD] at hre
    simp only [Option.none_bind] at hre
    exact Option.noConfusion hre
  case pos =>
  rw [readComp_two _ a7 a8 hD] at hre
  simp only [Option.some_bind] at hre
  rw [expWs_sp _ a9] at hre
  simp only [Option.some_bind] at hre
  by_cases hH : 0 ≤ dval k1 * 10 + dval k2 ∧ dval k1 * 10 + dval k2 ≤ 23
  case neg =>
    rw [readComp_two_none _ a9 a10 hH] at hre
    simp only [Option.none_bind] at hre
    exact Option.noConfusion hre
  case pos =>
  rw [readComp_two _ a9 a10 hH] at hre
  simp only [Option.some_bind] at hre
  rw [expCh_cons_self] at hre
  simp only [Option.some_bind] at hre
  by_cases hN : 0 ≤ dval n1 * 10 + dval n2 ∧ dval n1 * 10 + dval n2 ≤ 59
  case neg =>
    rw [readComp_two_none _ a11 a12 hN] at hre
    simp only [Option.none_bind] at hre
    exact Option.noConfusion hre
  case pos =>
  rw [readComp_two _ a11 a12 hN] at hre
  simp only [Option.some_bind] at hre
  rw [expCh_cons_self] at hre
  simp only [Option.some_bind] at hre
  by_cases hS : 0 ≤ dval e1 * 10 + dval e2 ∧ dval e1 * 10 + dval e2 ≤ 61
  case neg =>
    rw [readComp_two_none _ a13 a14 hS] at hre
    simp only [Option.none_bind] at hre
    exact Option.noConfusion hre
  case pos =>
  rw [readComp_two _ a13 a14 hS] at hre
  simp only [Option.some_bind] at hre
  simp only [if_true] at hre
  have ht := Option.some.inj hre
  rw [← ht, hra]
/-! Remaining support lemmas -/

theorem bump_ne_nil (acc : List (String × Nat)) (lv : String) : bump acc lv ≠ [] := by
  cases acc with
  | nil => simp [bump]
  | cons kv rest =>
    obtain ⟨k, v⟩ := kv
    simp only [bump]
    split_ifs <;> simp

theorem foldl_bump_ne_nil (logs : List LogRecord) (acc : List (String × Nat))
    (h : acc ≠ []) : logs.foldl (fun a log => bump a log.level) acc ≠ [] := by
  induction logs generalizing acc with
  | nil => exact h
  | cons l rest ih =>
    rw [List.foldl_cons]
    exact ih _ (bump_ne_nil acc l.level)

theorem counts_ne_nil {logs : List LogRecord} (h : logs ≠ []) :
    count_logs_by_level logs ≠ [] := by
  cases logs with
  | nil => exact absurd rfl h
  | cons l rest =>
    unfold count_logs_by_level
    rw [List.foldl_cons]
    exact foldl_bump_ne_nil rest _ (bump_ne_nil [] l.level)

theorem parse_level {line : String} {r : LogRecord}
    (h : parse_log_line line = some r) : r.level ∈ LOG_LEVELS := by
  obtain ⟨p0, p1, p2, p3, t, -, -, -, -, -, hlv, hr⟩ := parse_some_shape h
  rw [hr]
  exact hlv

theorem load_level {src : Source} {r : LogRecord} (h : r ∈ load_logs src) :
    r.level ∈ LOG_LEVELS := by
  cases src with
  | error e => simp [load_logs] at h
  | ok lines =>
    simp only [load_logs, List.mem_filterMap] at h
    obtain ⟨l, -, hl⟩ := h
    exact parse_level hl

theorem pyUpper_level {lv : String} (h : lv ∈ LOG_LEVELS) : pyUpper lv = lv := by
  simp only [LOG_LEVELS, List.mem_cons, List.not_mem_nil, or_false] at h
  rcases h with h | h | h | h <;> rw [h] <;> decide

theorem parse_message_facts {line : String} {r : LogRecord}
    (h : parse_log_line line = some r) :
    pyStrip r.message = r.message ∧ r.message ≠ "" := by
  obtain ⟨p0, p1, p2, p3, t, hcat, hm0, hm1, hm2, hst, hlv, hr, hhead,
    hlast1, hlast3, hstrip3⟩ := parse_full h
  rw [hr]
  constructor
  · exact congrArg String.mk (strip_idem p3)
  · intro hempty
    exact hstrip3 (congrArg String.data hempty)

/-! Claim theorems -/

/-- C1: in every run in which the source yields at least one valid record
the level-count table is printed, including runs whose filter level is not
one of the four recognized levels (then the invalid-level diagnostic is
printed and no filtered detail report is produced); the filtered report is
produced exactly when a valid filter level was supplied. -/
theorem claim_C1 (src : Source) (larg : Option String)
    (h : load_logs src ≠ []) :
    (main_run src larg).tableShown = true ∧
    (∀ a, larg = some a → pyUpper a ∉ LOG_LEVELS →
      (main_run src larg).invalidLevelDiag = true ∧
      (main_run src larg).filteredOut = none) ∧
    ((main_run src larg).filteredOut ≠ none ↔
      ∃ a, larg = some a ∧ pyUpper a ∈ LOG_LEVELS) := by
  have htable : (!(count_logs_by_level (load_logs src)).isEmpty) = true := by
    have hne := counts_ne_nil h
    cases hc : (count_logs_by_level (load_logs src)).isEmpty with
    | false => rfl
    | true => exact absurd (List.isEmpty_iff.mp hc) hne
  cases larg with
  | none =>
    simp only [main_run, if_neg h]
    refine ⟨htable, ?_, ?_⟩
    · intro a ha
      exact absurd ha (by simp)
    · simp
  | some arg =>
    by_cases hlv : pyUpper arg ∈ LOG_LEVELS
    · simp only [main_run, if_neg h, if_pos hlv]
      refine ⟨htable, ?_, ?_⟩
      · intro a ha hnot
        have : arg = a := Option.some.inj ha
        rw [← this] at hnot
        exact absurd hlv hnot
      · constructor
        · intro _
          exact ⟨arg, rfl, hlv⟩
        · intro _
          simp
    · simp only [main_run, if_neg h, if_neg hlv]
      refine ⟨htable, fun a ha hnot => ⟨by trivial, by trivial⟩, ?_⟩
      constructor
      · intro hne
        exact absurd rfl hne
      · rintro ⟨a, ha, hmem⟩
        have : arg = a := Option.some.inj ha
        rw [← this] at hmem
        exact absurd hmem hlv

theorem claim_C1_witness :
    (main_run (.ok ["2024-01-01 08:00:00 INFO Service started"])
      (some "trace")).tableShown = true ∧
    (main_run (.ok ["2024-01-01 08:00:00 INFO Service started"])
      (some "trace")).invalidLevelDiag = true ∧
    (main_run (.ok ["2024-01-01 08:00:00 INFO Service started"])
      (some "trace")).filteredOut = none := by
  have h := claim_C1 (.ok ["2024-01-01 08:00:00 INFO Service started"])
    (some "trace") (by decide)
  exact ⟨h.1, (h.2.1 "trace" rfl (by decide)).1, (h.2.1 "trace" rfl (by decide)).2⟩

/-- C2 (amended): parse rejects every line whose combined date-time token
is not accepted by strptime with pattern `%Y-%m-%d %H:%M:%S`; that pattern
requires a 4-digit year and calendar-valid components, but month, day,
hour, minute and second may be 1 or 2 digits, so an accepted timestamp
token need not be in the strict zero-padded fixed-width form. -/
theorem claim_C2 (line : String) (r : LogRecord)
    (h : parse_log_line line = some r) :
    ∃ t, pyStrptime r.date.data = some t ∧
      1 ≤ t.year ∧ t.year ≤ 9999 ∧ 1 ≤ t.month ∧ t.month ≤ 12 ∧
      1 ≤ t.day ∧ t.day ≤ daysInMonth t.year t.month ∧
      t.hour ≤ 23 ∧ t.minute ≤ 59 ∧ t.second ≤ 59 := by
  obtain ⟨p0, p1, p2, p3, t, hcat, hm0, hm1, hm2, hst, hlv, hr⟩ := parse_some_shape h
  refine ⟨t, ?_, ?_⟩
  · rw [hr]
    exact hst
  · obtain ⟨-, hc⟩ := pyStrptime_elim hst
    simp only [ctorOk, Bool.and_eq_true, decide_eq_true_eq] at hc
    omega

theorem claim_C2_witness :
    ∃ t, pyStrptime ("2024-01-03 10:15:00" : String).data = some t ∧
      1 ≤ t.year ∧ t.year ≤ 9999 ∧ 1 ≤ t.month ∧ t.month ≤ 12 ∧
      1 ≤ t.day ∧ t.day ≤ daysInMonth t.year t.month ∧
      t.hour ≤ 23 ∧ t.minute ≤ 59 ∧ t.second ≤ 59 :=
  claim_C2 "2024-01-03 10:15:00 ERROR Disk write failed"
    ⟨"2024-01-03 10:15:00", "ERROR", "Disk write failed"⟩ (by decide)

/-- C2 counterexample: parse accepts a line whose timestamp token is not
zero-padded, refuting the strict fixed-width claim. -/
theorem claim_C2_counterexample :
    parse_log_line "2024-1-01 08:00:00 INFO msg" =
      some ⟨"2024-1-01 08:00:00", "INFO", "msg"⟩ ∧
    isStrictToken "2024-1-01 08:00:00" = false := by
  exact ⟨by decide, by decide⟩

/-- C3 (amended): parse first trims the line; a line with fewer than 4
whitespace-delimited tokens yields no record; splitting is on single
space characters with at most 3 splits, the 4th field keeping the
remainder verbatim — but a line with at least 4 whitespace-delimited
tokens need not split into those tokens, because non-space whitespace is
not a delimiter. -/
theorem claim_C3 (line : String) :
    (tokCount line < 4 → parse_log_line line = none) ∧
    parse_log_line (pyStrip line) = parse_log_line line ∧
    (∀ p0 p1 p2 p3 : List Char, ' ' ∉ p0 → ' ' ∉ p1 → ' ' ∉ p2 →
      splitSp 3 (p0 ++ ' ' :: (p1 ++ ' ' :: (p2 ++ ' ' :: p3))) =
        [p0, p1, p2, p3]) := by
  refine ⟨?_, ?_, fun p0 p1 p2 p3 h0 h1 h2 => splitSp_three_concat p3 h0 h1 h2⟩
  · intro hlt
    cases hp : parse_log_line line with
    | none => rfl
    | some r =>
      have := parse_some_tokCount hp
      omega
  · unfold parse_log_line
    rw [show stripList (pyStrip line).data = stripList line.data from
      strip_idem line.data]

theorem claim_C3_witness :
    parse_log_line "two tokens" = none ∧
    splitSp 3 (['a'] ++ ' ' :: (['b'] ++ ' ' :: (['c'] ++ ' ' :: ['d']))) =
      [['a'], ['b'], ['c'], ['d']] := by
  have h := claim_C3 "two tokens"
  exact ⟨h.1 (by decide),
    h.2.2 ['a'] ['b'] ['c'] ['d'] (by decide) (by decide) (by decide)⟩

/-- C3 counterexample: a line with 5 whitespace-delimited tokens whose
delimiter after the date is a tab is rejected outright, while the same
tokens separated by spaces are accepted — so the 4 fields are not the
whitespace tokens. -/
theorem claim_C3_counterexample :
    tokCount "2024-01-01\t08:00:00 INFO hello world" = 5 ∧
    parse_log_line "2024-01-01\t08:00:00 INFO hello world" = none ∧
    parse_log_line "2024-01-01 08:00:00 INFO hello world" =
      some ⟨"2024-01-01 08:00:00", "INFO", "hello world"⟩ := by
  exact ⟨by decide, by decide, by decide⟩

/-- C4 (amended): load applies parse to every line in order, keeps
exactly the successes in input order, a rejected line never aborts the
batch, and the no-valid-entries warning is printed exactly when the
collection is empty; load returns only the record list, not a count of
rejected lines. -/
theorem claim_C4 (lines : List String) (l : String) (ls : List String)
    (r : LogRecord) :
    load_logs (.ok lines) = lines.filterMap parse_log_line ∧
    (parse_log_line l = none →
      load_logs (.ok (l :: ls)) = load_logs (.ok ls)) ∧
    (parse_log_line l = some r →
      load_logs (.ok (l :: ls)) = r :: load_logs (.ok ls)) ∧
    (load_diag (.ok lines) =
        some "Warning: No valid log entries found in file" ↔
      load_logs (.ok lines) = []) := by
  refine ⟨rfl, ?_, ?_, ?_⟩
  · intro h
    simp [load_logs, List.filterMap_cons, h]
  · intro h
    simp [load_logs, List.filterMap_cons, h]
  · show (if lines.filterMap parse_log_line = [] then
        some "Warning: No valid log entries found in file" else none) =
        some "Warning: No valid log entries found in file" ↔
      lines.filterMap parse_log_line = []
    by_cases hz : lines.filterMap parse_log_line = []
    · rw [if_pos hz]
      simp [hz]
    · rw [if_neg hz]
      simp [hz]

theorem claim_C4_witness :
    load_logs (.ok ["garbage", "2024-01-01 08:00:00 INFO ok"]) =
      ["garbage", "2024-01-01 08:00:00 INFO ok"].filterMap parse_log_line ∧
    load_logs (.ok ("garbage" :: ["2024-01-01 08:00:00 INFO ok"])) =
      load_logs (.ok ["2024-01-01 08:00:00 INFO ok"]) ∧
    load_logs (.ok ("2024-01-01 08:00:00 INFO ok" :: [])) =
      ⟨"2024-01-01 08:00:00", "INFO", "ok"⟩ :: load_logs (.ok []) := by
  have h1 := claim_C4 ["garbage", "2024-01-01 08:00:00 INFO ok"] "garbage"
    ["2024-01-01 08:00:00 INFO ok"] ⟨"2024-01-01 08:00:00", "INFO", "ok"⟩
  have h2 := claim_C4 [] "2024-01-01 08:00:00 INFO ok" []
    ⟨"2024-01-01 08:00:00", "INFO", "ok"⟩
  exact ⟨h1.1, h1.2.1 (by decide), h2.2.2.1 (by decide)⟩

/-- C4 counterexample: two readable sources with different numbers of
rejected lines produce identical complete outputs of load (records and
diagnostic), so load does not return the count of rejected lines. -/
theorem claim_C4_counterexample :
    load_logs_run (.ok ["2024-01-01 08:00:00 INFO Service started",
      "garbage line"]) =
      load_logs_run (.ok ["2024-01-01 08:00:00 INFO Service started",
        "garbage line", "also bad"]) ∧
    specRejectedCount ["2024-01-01 08:00:00 INFO Service started",
      "garbage line"] = 1 ∧
    specRejectedCount ["2024-01-01 08:00:00 INFO Service started",
      "garbage line", "also bad"] = 2 := by
  exact ⟨by decide, by decide, by decide⟩

/-- C5 (amended): the message of every accepted record is the 4th field
trimmed of surrounding whitespace (it is a fixed point of trimming), and
it is never empty: since the parser trims the whole line first, the
remainder after the third space cannot be empty or all-whitespace. -/
theorem claim_C5 (line : String) (r : LogRecord)
    (h : parse_log_line line = some r) :
    pyStrip r.message = r.message ∧ r.message ≠ "" :=
  parse_message_facts h

theorem claim_C5_witness :
    pyStrip (LogRecord.mk "2024-01-01 08:00:00" "INFO" "ok").message =
      (LogRecord.mk "2024-01-01 08:00:00" "INFO" "ok").message ∧
    (LogRecord.mk "2024-01-01 08:00:00" "INFO" "ok").message ≠ "" :=
  claim_C5 "2024-01-01 08:00:00 INFO ok"
    ⟨"2024-01-01 08:00:00", "INFO", "ok"⟩ (by decide)

/-- C5 counterexample: no accepted line yields an empty message, refuting
the claim that an empty message is possible. -/
theorem claim_C5_counterexample :
    ¬ ∃ (line : String) (r : LogRecord),
      parse_log_line line = some r ∧ r.message = "" := by
  rintro ⟨line, r, h, hmsg⟩
  exact (parse_message_facts h).2 hmsg

/-- C6: re-serializing an accepted record as timestamp, level and message
joined by single spaces yields a line that parses again to the same
record. -/
theorem claim_C6 (line : String) (r : LogRecord)
    (h : parse_log_line line = some r) :
    parse_log_line (reserialize r) = some r :=
  parse_roundtrip h

theorem claim_C6_witness :
    parse_log_line (reserialize
      ⟨"2024-01-03 10:15:00", "ERROR", "Disk write failed"⟩) =
      some ⟨"2024-01-03 10:15:00", "ERROR", "Disk write failed"⟩ :=
  claim_C6 "2024-01-03 10:15:00 ERROR Disk write failed"
    ⟨"2024-01-03 10:15:00", "ERROR", "Disk write failed"⟩ (by decide)

/-- C7: filterByLevel returns the subsequence, in input order, of records
whose uppercased level equals the uppercased query; the result depends
only on the uppercased query, and filtering by "error" and by "ERROR"
give identical results. -/
theorem claim_C7 (logs : List LogRecord) (lv : String) :
    List.Sublist (filter_logs_by_level logs lv) logs ∧
    (∀ r, r ∈ filter_logs_by_level logs lv ↔
      r ∈ logs ∧ pyUpper r.level = pyUpper lv) ∧
    (∀ lv2, pyUpper lv = pyUpper lv2 →
      filter_logs_by_level logs lv = filter_logs_by_level logs lv2) ∧
    filter_logs_by_level logs "error" = filter_logs_by_level logs "ERROR" := by
  refine ⟨List.filter_sublist logs, ?_, ?_, ?_⟩
  · intro r
    simp [filter_logs_by_level, List.mem_filter]
  · intro lv2 he
    unfold filter_logs_by_level
    rw [he]
  · unfold filter_logs_by_level
    rw [show pyUpper "error" = pyUpper "ERROR" from by decide]

theorem claim_C7_witness :
    filter_logs_by_level [⟨"2024-01-01 08:00:00", "INFO", "ok"⟩] "Error" =
      filter_logs_by_level [⟨"2024-01-01 08:00:00", "INFO", "ok"⟩] "ERROR" :=
  (claim_C7 [⟨"2024-01-01 08:00:00", "INFO", "ok"⟩] "Error").2.2.1 "ERROR"
    (by decide)

/-- C8 (amended): the filtered report renders the records sorted
ascending by timestamp string (a stable sort under the lexicographic
key order), each line as `"<timestamp> - <message>"`; for records whose
timestamps are in the strict zero-padded form the lexicographic order
coincides with chronological order of the parsed date-times — but parse
also accepts non-padded timestamps, for which the two orders differ. -/
theorem claim_C8 (logs : List LogRecord) (hne : logs ≠ []) :
    display_filtered_logs logs =
      some ((sortByDate logs).map (fun r => r.date ++ " - " ++ r.message)) ∧
    (sortByDate logs).Perm logs ∧
    List.Sorted dateLe (sortByDate logs) ∧
    (∀ r1 r2 : LogRecord, ∀ t1 t2 : DT,
      isStrictToken r1.date = true → isStrictToken r2.date = true →
      pyStrptime r1.date.data = some t1 → pyStrptime r2.date.data = some t2 →
      (lexLt r1.date.data r2.date.data = true ↔ dtRank t1 < dtRank t2)) := by
  refine ⟨?_, List.perm_insertionSort dateLe logs,
    List.sorted_insertionSort dateLe logs, ?_⟩
  · unfold display_filtered_logs
    rw [if_neg hne]
  · intro r1 r2 t1 t2 h1 h2 hp1 hp2
    rw [strict_lexLt_iff h1 h2, strict_strptime_rank h1 hp1,
      strict_strptime_rank h2 hp2]

theorem claim_C8_witness :
    display_filtered_logs [⟨"2024-01-01 08:00:00", "INFO", "a"⟩] =
      some ((sortByDate [⟨"2024-01-01 08:00:00", "INFO", "a"⟩]).map
        (fun r => r.date ++ " - " ++ r.message)) ∧
    (lexLt ("2024-01-01 08:00:00" : String).data
        ("2024-01-02 08:00:00" : String).data = true ↔
      dtRank ⟨2024, 1, 1, 8, 0, 0⟩ < dtRank ⟨2024, 1, 2, 8, 0, 0⟩) := by
  have h := claim_C8 [⟨"2024-01-01 08:00:00", "INFO", "a"⟩] (by decide)
  exact ⟨h.1, h.2.2.2 ⟨"2024-01-01 08:00:00", "INFO", "a"⟩
    ⟨"2024-01-02 08:00:00", "INFO", "b"⟩ ⟨2024, 1, 1, 8, 0, 0⟩
    ⟨2024, 1, 2, 8, 0, 0⟩ (by decide) (by decide) (by decide) (by decide)⟩

/-- C8 counterexample: two accepted records where the date-string sort
disagrees with chronological order — the non-padded `2024-1-02` sorts
lexicographically after the padded `2024-01-03` although it is the
earlier date. -/
theorem claim_C8_counterexample :
    parse_log_line "2024-1-02 00:00:00 INFO a" =
      some ⟨"2024-1-02 00:00:00", "INFO", "a"⟩ ∧
    parse_log_line "2024-01-03 00:00:00 INFO b" =
      some ⟨"2024-01-03 00:00:00", "INFO", "b"⟩ ∧
    chronoRank ⟨"2024-1-02 00:00:00", "INFO", "a"⟩ <
      chronoRank ⟨"2024-01-03 00:00:00", "INFO", "b"⟩ ∧
    lexLt ("2024-01-03 00:00:00" : String).data
      ("2024-1-02 00:00:00" : String).data = true ∧
    sortByDate [⟨"2024-1-02 00:00:00", "INFO", "a"⟩,
        ⟨"2024-01-03 00:00:00", "INFO", "b"⟩] =
      [⟨"2024-01-03 00:00:00", "INFO", "b"⟩,
        ⟨"2024-1-02 00:00:00", "INFO", "a"⟩] := by
  exact ⟨by decide, by decide, by decide, by decide, by decide⟩

/-- C9: every record a load produces carries one of the four recognized
level tokens, and filtering a loaded collection by any query whose
uppercasing is not one of those tokens yields the empty collection. -/
theorem claim_C9 (src : Source) (r : LogRecord) (q : String) :
    (r ∈ load_logs src → r.level ∈ LOG_LEVELS) ∧
    (pyUpper q ∉ LOG_LEVELS →
      filter_logs_by_level (load_logs src) q = []) := by
  constructor
  · exact load_level
  · intro hq
    unfold filter_logs_by_level
    rw [List.filter_eq_nil_iff]
    intro a ha
    have hlv := load_level ha
    have hup : pyUpper a.level = a.level := pyUpper_level hlv
    intro hbeq
    rw [beq_iff_eq, hup] at hbeq
    exact hq (hbeq ▸ hlv)

theorem claim_C9_witness :
    (LogRecord.mk "2024-01-01 08:00:00" "INFO" "ok").level ∈ LOG_LEVELS ∧
    filter_logs_by_level
      (load_logs (.ok ["2024-01-01 08:00:00 INFO ok"])) "trace" = [] := by
  have h := claim_C9 (.ok ["2024-01-01 08:00:00 INFO ok"])
    ⟨"2024-01-01 08:00:00", "INFO", "ok"⟩ "trace"
  exact ⟨h.1 (by decide), h.2 (by decide)⟩

/-- C10: every read failure makes load return the empty collection, the
same value as for a readable source with no valid lines; apart from the
diagnostic, such a run is observationally identical to the
no-valid-records case — no count table and no filtered report. -/
theorem claim_C10 (e : FileErr) (larg : Option String) :
    load_logs (.error e) = [] ∧
    load_logs (.error e) = load_logs (.ok ["not a log line"]) ∧
    (main_run (.error e) larg).tableShown = false ∧
    (main_run (.error e) larg).filteredOut = none ∧
    (main_run (.error e) larg).invalidLevelDiag = false ∧
    (main_run (.error e) larg).tableShown =
      (main_run (.ok ["not a log line"]) larg).tableShown ∧
    (main_run (.error e) larg).invalidLevelDiag =
      (main_run (.ok ["not a log line"]) larg).invalidLevelDiag ∧
    (main_run (.error e) larg).filteredOut =
      (main_run (.ok ["not a log line"]) larg).filteredOut := by
  have hok : load_logs (.ok ["not a log line"]) = [] := by decide
  have hmaine : main_run (.error e) larg =
      ⟨load_diag (.error e), false, false, none⟩ := by
    simp only [main_run]
    rw [if_pos (show load_logs (.error e) = [] from rfl)]
  have hmaino : main_run (.ok ["not a log line"]) larg =
      ⟨load_diag (.ok ["not a log line"]), false, false, none⟩ := by
    simp only [main_run]
    rw [if_pos hok]
  refine ⟨rfl, hok.symm, ?_, ?_, ?_, ?_, ?_, ?_⟩ <;> simp [hmaine, hmaino]

end Task3
